import Mathlib

/-!
# 2D physics engine: the world stepping loop and the nearest-body query

A shallow embedding of `src/Physics/World.cpp` and of
`Application::FindClosestBody` (`src/Application.cpp`).

* C++ `float` values are idealised as rationals (`ℚ`).
* `Body *` and `Constraint *` are addresses (`Nat`); the objects they point to
  live in a heap `σ` that is threaded through every call.
* The classes `Body`, `Constraint`, `Contact`, `CollisionDetection` and the header
  `Constants.h` are used by `World.cpp` but are not part of the translated
  sources.  `World` is therefore embedded over an interface `Ops` that lists
  exactly the members `World.cpp` touches; a concrete `Body`, written from the
  specification, instantiates it (`specOps`).
* Every call that `World::Update` makes on a collaborator is recorded as an
  `Event`, so that statements about call order are statements about a list.
* `std::vector::size()` is a `size_t`; `bodies.size() - 1` is computed modulo
  `2 ^ 64`.  Loop indices are `int`s, kept as integers and wrapped to 32 bits on
  increment.  The two index loops of `World::CheckCollisions` are driven by
  fuel, which bounds the number of times each loop evaluates its condition; a
  run that exhausts it has not returned.
-/

namespace Physics

/-! ## Vectors, addresses, events -/

/-- A two-component vector (`Vec2`). -/
structure Vec2 where
  x : ℚ
  y : ℚ
  deriving DecidableEq, Repr

/-- The address held by a `Body *`. -/
abbrev BodyPtr := Nat

/-- The address held by a `Constraint *`. -/
abbrev ConstraintPtr := Nat

/-- One call made by `World::Update` on a collaborator.  `IsColliding` also
records the two vector indices at which the bodies were read. -/
inductive Event where
  | AddForce (body : BodyPtr) (force : Vec2)
  | AddTorque (body : BodyPtr) (torque : ℚ)
  | IntegrateForces (body : BodyPtr) (deltaTime : ℚ)
  | Solve (constraint : ConstraintPtr)
  | IntegrateVelocities (body : BodyPtr) (deltaTime : ℚ)
  | IsColliding (i j : Nat) (bodyA bodyB : BodyPtr)
  | ResolveCollision (bodyA bodyB : BodyPtr)
  deriving DecidableEq, Repr

/-- The phase of `World::Update` an event belongs to: 1 injection,
2 `IntegrateForces`, 3 `Solve`, 4 `IntegrateVelocities`, 5 collision check. -/
def Event.phase : Event → Nat
  | .AddForce _ _ => 1
  | .AddTorque _ _ => 1
  | .IntegrateForces _ _ => 2
  | .Solve _ => 3
  | .IntegrateVelocities _ _ => 4
  | .IsColliding _ _ _ _ => 5
  | .ResolveCollision _ _ => 5

/-- The bodies an event is about. -/
def Event.bodies : Event → List BodyPtr
  | .AddForce b _ => [b]
  | .AddTorque b _ => [b]
  | .IntegrateForces b _ => [b]
  | .Solve _ => []
  | .IntegrateVelocities b _ => [b]
  | .IsColliding _ _ a b => [a, b]
  | .ResolveCollision a b => [a, b]

/-- The index pair and the two bodies of an `IsColliding` call. -/
def Event.test? : Event → Option ((Nat × Nat) × (BodyPtr × BodyPtr))
  | .IsColliding i j a b => some ((i, j), (a, b))
  | _ => none

/-- The `IsColliding` calls of a trace, in order. -/
def tests (es : List Event) : List ((Nat × Nat) × (BodyPtr × BodyPtr)) :=
  es.filterMap Event.test?

/-! ## The collaborators of `World` -/

/-- The members of `Body`, `Constraint`, `Contact`, `CollisionDetection` and
`Constants.h` that `World.cpp` uses, over a heap `σ` and a contact type `κ`. -/
structure Ops (σ κ : Type) where
  /-- The constant `PIXELS_PER_METER` of `Constants.h`. -/
  PIXELS_PER_METER : ℚ
  /-- The call `body->IsStatic()`. -/
  IsStatic : σ → BodyPtr → Bool
  /-- The field read `body->gravityScale`. -/
  gravityScale : σ → BodyPtr → ℚ
  /-- The field read `body->mass`. -/
  mass : σ → BodyPtr → ℚ
  /-- The field write `body->isColliding = v`. -/
  setIsColliding : σ → BodyPtr → Bool → σ
  /-- The call `body->AddForce(force)`. -/
  AddForce : σ → BodyPtr → Vec2 → σ
  /-- The call `body->AddTorque(torque)`. -/
  AddTorque : σ → BodyPtr → ℚ → σ
  /-- The call `body->IntegrateForces(deltaTime)`. -/
  IntegrateForces : σ → BodyPtr → ℚ → σ
  /-- The call `body->IntegrateVelocities(deltaTime)`. -/
  IntegrateVelocities : σ → BodyPtr → ℚ → σ
  /-- The call `constraint->Solve()`. -/
  Solve : σ → ConstraintPtr → σ
  /-- The call `CollisionDetection::IsColliding(a, b, contact)`: the returned flag and
  the contact it fills in. -/
  IsColliding : σ → BodyPtr → BodyPtr → Bool × κ
  /-- The call `contact.ResolveCollision()`. -/
  ResolveCollision : σ → κ → σ

/-! ## Machine arithmetic of the index loops -/

/-- Number of values of a `size_t`. -/
def SIZE_MOD : Nat := 2 ^ 64

/-- Largest `int`. -/
def INT_MAX : Nat := 2 ^ 31 - 1

/-- Conversion of an `int` to `size_t` (done by `<=`, `<` and `operator[]`
when the other operand is a `size_t`). -/
def toSize (i : Int) : Nat := (i % (SIZE_MOD : Int)).toNat

/-- Subtraction of `size_t` values. -/
def sizeSub (a b : Nat) : Nat := (a % SIZE_MOD + SIZE_MOD - b % SIZE_MOD) % SIZE_MOD

/-- The value `i + 1` of an `int`, wrapped to 32 bits in two's complement. -/
def intSucc (i : Int) : Int := (i + 1 + 2 ^ 31) % 2 ^ 32 - 2 ^ 31

/-! ## Runs -/

/-- What a fuel-driven computation has done: the calls it made so far, and its
final state if it returned (`none`: it has not returned). -/
structure Run (α : Type) where
  events : List Event
  result : Option α

/-- A run preceded by some calls. -/
def Run.after {α : Type} (es : List Event) (r : Run α) : Run α :=
  ⟨es ++ r.events, r.result⟩

/-- A range-based `for` over a vector: the body is run on each element in
order, threading the heap and collecting the calls. -/
def forEach {α σ : Type} (body : σ → α → List Event × σ) : List α → σ → List Event × σ
  | [], s => ([], s)
  | a :: as, s =>
    let r := body s a
    let rs := forEach body as r.2
    (r.1 ++ rs.1, rs.2)

/-! ## `World` -/

/-- The data members of `World`. -/
structure World where
  G : ℚ
  bodies : List BodyPtr
  constraints : List ConstraintPtr
  forces : List Vec2
  torques : List ℚ
  deriving DecidableEq, Repr

namespace World

/-- The constructor `World::World(float gravity) : G(-gravity)`. -/
def new (gravity : ℚ) : World :=
  { G := -gravity, bodies := [], constraints := [], forces := [], torques := [] }

/-- The method `World::AddBody`: `bodies.push_back(body)`. -/
def AddBody (w : World) (body : BodyPtr) : World :=
  { w with bodies := w.bodies ++ [body] }

/-- The method `World::RemoveBody`: `std::find` returns the position of the first element
equal to `body` (or the end), and that position is erased unless it is the end. -/
def RemoveBody (w : World) (body : BodyPtr) : World :=
  let it := w.bodies.indexOf body
  if it ≠ w.bodies.length then { w with bodies := w.bodies.eraseIdx it } else w

/-- The method `World::AddConstraint`. -/
def AddConstraint (w : World) (constraint : ConstraintPtr) : World :=
  { w with constraints := w.constraints ++ [constraint] }

/-- The method `World::RemoveConstraint`. -/
def RemoveConstraint (w : World) (constraint : ConstraintPtr) : World :=
  let it := w.constraints.indexOf constraint
  if it ≠ w.constraints.length then { w with constraints := w.constraints.eraseIdx it } else w

/-- The method `World::AddForce`: `forces.push_back(force)`. -/
def AddForce (w : World) (force : Vec2) : World :=
  { w with forces := w.forces ++ [force] }

/-- The method `World::AddTorque`: `torques.push_back(torque)`. -/
def AddTorque (w : World) (torque : ℚ) : World :=
  { w with torques := w.torques ++ [torque] }

variable {σ κ : Type}

/-- The body of the first loop of `World::Update`, for one body. -/
def injectBody (ops : Ops σ κ) (w : World) (s : σ) (body : BodyPtr) : List Event × σ :=
  if ops.IsStatic s body then ([], s)
  else
    -- Reset collision flag
    let s0 := ops.setIsColliding s body false
    -- Apply gravity
    let g : Vec2 := ⟨0, ops.gravityScale s0 body * (w.G * ops.mass s0 body * ops.PIXELS_PER_METER)⟩
    let s1 := ops.AddForce s0 body g
    -- Apply forces
    let r2 := forEach (fun t force => ([Event.AddForce body force], ops.AddForce t body force))
      w.forces s1
    -- Apply torques
    let r3 := forEach (fun t torque => ([Event.AddTorque body torque], ops.AddTorque t body torque))
      w.torques r2.2
    (Event.AddForce body g :: (r2.1 ++ r3.1), r3.2)

/-- The first loop of `World::Update` (lines 66-84). -/
def inject (ops : Ops σ κ) (w : World) (s : σ) : List Event × σ :=
  forEach (injectBody ops w) w.bodies s

/-- The inner loop of `World::CheckCollisions`:
`for (int j = ...; j < bodies.size(); ++j) { ... }` with `j` the current value.
An `operator[]` out of range has no defined result: the run stops without
returning. -/
def checkInner (ops : Ops σ κ) (bodies : List BodyPtr) (i : Int) :
    Nat → Int → σ → Run σ
  | 0, _, _ => ⟨[], none⟩
  | fuel + 1, j, s =>
    if toSize j < bodies.length then
      match bodies[toSize i]?, bodies[toSize j]? with
      | some bodyA, some bodyB =>
        let c := ops.IsColliding s bodyA bodyB
        if !c.1 then
          (checkInner ops bodies i fuel (intSucc j) s).after
            [Event.IsColliding (toSize i) (toSize j) bodyA bodyB]
        else
          -- Resolve collision
          let s1 := ops.ResolveCollision s c.2
          let s2 := ops.setIsColliding s1 bodyA true
          let s3 := ops.setIsColliding s2 bodyB true
          (checkInner ops bodies i fuel (intSucc j) s3).after
            [Event.IsColliding (toSize i) (toSize j) bodyA bodyB,
             Event.ResolveCollision bodyA bodyB]
      | _, _ => ⟨[], none⟩
    else ⟨[], some s⟩

/-- The outer loop of `World::CheckCollisions`:
`for (int i = ...; i <= bodies.size() - 1; ++i) { ... }` with `i` the current
value. -/
def checkOuter (ops : Ops σ κ) (bodies : List BodyPtr) : Nat → Int → σ → Run σ
  | 0, _, _ => ⟨[], none⟩
  | fuel + 1, i, s =>
    if toSize i ≤ sizeSub bodies.length 1 then
      let r := checkInner ops bodies i fuel (intSucc i) s
      match r.result with
      | none => r
      | some s1 => (checkOuter ops bodies fuel (intSucc i) s1).after r.events
    else ⟨[], some s⟩

/-- The method `World::CheckCollisions`. -/
def CheckCollisions (ops : Ops σ κ) (w : World) (fuel : Nat) (s : σ) : Run σ :=
  checkOuter ops w.bodies fuel 0 s

/-- The method `World::Update`: the calls made, and the world and heap it returns with. -/
def Update (ops : Ops σ κ) (w : World) (deltaTime : ℚ) (fuel : Nat) (s : σ) :
    Run (World × σ) :=
  let r1 := inject ops w s
  -- Integrate all forces
  let r2 := forEach (fun t body =>
    ([Event.IntegrateForces body deltaTime], ops.IntegrateForces t body deltaTime)) w.bodies r1.2
  -- Solve all constraints
  let r3 := forEach (fun t constraint => ([Event.Solve constraint], ops.Solve t constraint))
    w.constraints r2.2
  -- Integrate all velocities
  let r4 := forEach (fun t body =>
    ([Event.IntegrateVelocities body deltaTime], ops.IntegrateVelocities t body deltaTime))
    w.bodies r3.2
  -- Check collisions
  let r5 := CheckCollisions ops w fuel r4.2
  ⟨r1.1 ++ r2.1 ++ r3.1 ++ r4.1 ++ r5.events, r5.result.map (fun t => (w, t))⟩

/-- Successive steps: `World::Update` called `k` times, each call starting from
the world and heap the previous one returned with.  For every call the heap it
started from and the calls it made are kept. -/
def steps (ops : Ops σ κ) (deltaTime : ℚ) (fuel : Nat) :
    Nat → World → σ → Option (List (σ × List Event) × (World × σ))
  | 0, w, s => some ([], (w, s))
  | k + 1, w, s =>
    let r := Update ops w deltaTime fuel s
    match r.result with
    | none => none
    | some (w1, s1) =>
      match steps ops deltaTime fuel k w1 s1 with
      | none => none
      | some (ts, fin) => some ((s, r.events) :: ts, fin)

/-- A call of `AddBody` or of `RemoveBody`. -/
inductive Cmd where
  | add (body : BodyPtr)
  | remove (body : BodyPtr)
  deriving DecidableEq, Repr

/-- The world after a sequence of `AddBody` and `RemoveBody` calls. -/
def run : List Cmd → World → World
  | [], w => w
  | Cmd.add b :: cs, w => run cs (w.AddBody b)
  | Cmd.remove b :: cs, w => run cs (w.RemoveBody b)

/-- No call of the sequence adds a body that is in the collection at the time
of the call. -/
def addsFresh : List Cmd → World → Bool
  | [], _ => true
  | Cmd.add b :: cs, w => !(w.bodies.contains b) && addsFresh cs (w.AddBody b)
  | Cmd.remove b :: cs, w => addsFresh cs (w.RemoveBody b)

end World

/-! ## `Body`, from the specification -/

/-- Modelled from the spec: the class `Body` (its sources are not among the
translated files), with the attributes of section 3: position, orientation,
linear and angular velocity, accumulated force and torque, mass and its
reciprocal, rotational inertia and its reciprocal, restitution, friction,
gravity scale and the transient "is colliding" flag.  The shape and the render
colour take no part in what is modelled here. -/
structure Body where
  position : Vec2
  rotation : ℚ
  velocity : Vec2
  angularVelocity : ℚ
  sumForces : Vec2
  sumTorque : ℚ
  mass : ℚ
  invMass : ℚ
  I : ℚ
  invI : ℚ
  restitution : ℚ
  friction : ℚ
  gravityScale : ℚ
  isColliding : Bool
  deriving DecidableEq, Repr

/-- Modelled from the spec: vector addition, "2D vector arithmetic (add, scale ...)"
of `Vec2`, whose sources are not among the translated files. -/
def Vec2.add (a b : Vec2) : Vec2 := ⟨a.x + b.x, a.y + b.y⟩

/-- Modelled from the spec: vector subtraction of `Vec2`. -/
def Vec2.sub (a b : Vec2) : Vec2 := ⟨a.x - b.x, a.y - b.y⟩

/-- Modelled from the spec: scaling of a `Vec2` by a number. -/
def Vec2.scale (a : Vec2) (k : ℚ) : Vec2 := ⟨a.x * k, a.y * k⟩

namespace Body

/-- Modelled from the spec: `Body::IsStatic`, "reciprocal = 0 signals an
immovable/static body ... exposed as an `IsStatic()` query". -/
def IsStatic (b : Body) : Bool := decide (b.invMass = 0)

/-- Modelled from the spec: `Body::AddForce`, "accumulate onto the body's
per-step totals". -/
def AddForce (b : Body) (force : Vec2) : Body :=
  { b with sumForces := b.sumForces.add force }

/-- Modelled from the spec: `Body::AddTorque`, "accumulate onto the body's
per-step totals". -/
def AddTorque (b : Body) (torque : ℚ) : Body :=
  { b with sumTorque := b.sumTorque + torque }

/-- Modelled from the spec: `Body::IntegrateForces`, "converts accumulated force
into linear acceleration (`a = F / m` using the stored inverse mass ...) and
accumulates it into velocity, likewise accumulates angular acceleration
(`τ * invInertia`) into angular velocity, then clears the force/torque
accumulators". -/
def IntegrateForces (b : Body) (dt : ℚ) : Body :=
  { b with
    velocity := b.velocity.add ((b.sumForces.scale b.invMass).scale dt)
    angularVelocity := b.angularVelocity + b.sumTorque * b.invI * dt
    sumForces := ⟨0, 0⟩
    sumTorque := 0 }

/-- Modelled from the spec: `Body::IntegrateVelocities`, "advances position by
`velocity * dt` and orientation by `angularVelocity * dt`". -/
def IntegrateVelocities (b : Body) (dt : ℚ) : Body :=
  { b with
    position := b.position.add (b.velocity.scale dt)
    rotation := b.rotation + b.angularVelocity * dt }

end Body

/-- The bodies in memory: the object each address points to. -/
abbrev Heap := BodyPtr → Body

/-- A heap with the object at address `p` replaced. -/
def Heap.set (h : Heap) (p : BodyPtr) (b : Body) : Heap :=
  fun q => if q = p then b else h q

/-- Modelled from the spec: the collaborators of `World` over heaps of `Body`
objects.  The body operations are those of section 4.1; the value of
`PIXELS_PER_METER`, collision detection, contact resolution and constraint
solving, which the specification does not give as formulas, stay parameters. -/
def specOps {κ : Type} (pixelsPerMeter : ℚ) (detect : Heap → BodyPtr → BodyPtr → Bool × κ)
    (resolve : Heap → κ → Heap) (solve : Heap → ConstraintPtr → Heap) : Ops Heap κ where
  PIXELS_PER_METER := pixelsPerMeter
  IsStatic := fun h p => (h p).IsStatic
  gravityScale := fun h p => (h p).gravityScale
  mass := fun h p => (h p).mass
  setIsColliding := fun h p v => h.set p { h p with isColliding := v }
  AddForce := fun h p f => h.set p ((h p).AddForce f)
  AddTorque := fun h p t => h.set p ((h p).AddTorque t)
  IntegrateForces := fun h p dt => h.set p ((h p).IntegrateForces dt)
  IntegrateVelocities := fun h p dt => h.set p ((h p).IntegrateVelocities dt)
  Solve := solve
  IsColliding := detect
  ResolveCollision := resolve

/-! ## `Application::FindClosestBody` -/

namespace Application

/-- The body of the loop of `Application::FindClosestBody` on the state
`(closestbody, closestDistance)`: `distance` is computed, the body is skipped
when `closestbody && distance >= closestDistance`, and else it becomes the
closest one. -/
def closestStep {α : Type} [LinearOrder α] (dist : BodyPtr → α)
    (st : Option BodyPtr × α) (body : BodyPtr) : Option BodyPtr × α :=
  let distance := dist body
  if st.1.isSome ∧ distance ≥ st.2 then st else (some body, distance)

/-- The method `Application::FindClosestBody`.  `pos body` is the field read
`body->position` and `Magnitude` is `Vec2::Magnitude`, whose values are taken in
a linear order; the loop starts from `(nullptr, 0.0f)`. -/
def FindClosestBody {α : Type} [LinearOrder α] [Zero α] (Magnitude : Vec2 → α)
    (pos : BodyPtr → Vec2) (bodies : List BodyPtr) (position : Vec2) : Option BodyPtr :=
  (bodies.foldl (closestStep (fun body => Magnitude ((pos body).sub position))) (none, 0)).1

end Application

/-! ## The injection loop, body by body -/

/-- The calls of the injection loop on the body at address `p` whose object is
`b`: none if it is static, else gravity, the queued forces, the queued
torques. -/
def injectCalls (w : World) (pixelsPerMeter : ℚ) (b : Body) (p : BodyPtr) : List Event :=
  if b.IsStatic then []
  else
    Event.AddForce p ⟨0, b.gravityScale * (w.G * b.mass * pixelsPerMeter)⟩
      :: (w.forces.map (fun force => Event.AddForce p force)
          ++ w.torques.map (fun torque => Event.AddTorque p torque))

/-- The object of a body after one pass of the injection loop over it. -/
def Body.injected (w : World) (pixelsPerMeter : ℚ) (b : Body) : Body :=
  if b.IsStatic then b
  else
    w.torques.foldl Body.AddTorque
      (w.forces.foldl Body.AddForce
        (Body.AddForce { b with isColliding := false }
          ⟨0, b.gravityScale * (w.G * b.mass * pixelsPerMeter)⟩))

/-! ## A small concrete world -/

/-- A movable body at rest: mass 2, gravity scale 1. -/
def sampleBody : Body :=
  { position := ⟨0, 0⟩, rotation := 0, velocity := ⟨0, 0⟩, angularVelocity := 0,
    sumForces := ⟨0, 0⟩, sumTorque := 0, mass := 2, invMass := 1 / 2, I := 1, invI := 1,
    restitution := 1, friction := 0, gravityScale := 1, isColliding := false }

/-- Collaborators in which no pair of bodies overlaps and there is nothing to
resolve or solve; 50 pixels per metre. -/
def sampleOps : Ops Heap Unit :=
  specOps 50 (fun _ _ _ => (false, ())) (fun h _ => h) (fun h _ => h)

/-- A heap in which every address holds `sampleBody`. -/
def sampleHeap : Heap := fun _ => sampleBody

/-- A world of gravity `-10` with the two bodies at addresses 0 and 1. -/
def sampleWorld : World := ((World.new (-10)).AddBody 0).AddBody 1

/-- A world of gravity `-10` whose only body is the one at address 0. -/
def loneWorld : World := (World.new (-10)).AddBody 0

/-- An immovable body (inverse mass 0) whose "is colliding" flag is set. -/
def flaggedStaticBody : Body :=
  { sampleBody with mass := 0, invMass := 0, isColliding := true }

/-- A heap holding `flaggedStaticBody` at address 0 and, at every other
address, a movable body whose "is colliding" flag is set. -/
def flaggedHeap : Heap :=
  fun p => if p = 0 then flaggedStaticBody else { sampleBody with isColliding := true }

/-- Collaborators in which every tested pair overlaps and contact resolution
stops the body at address 0; 50 pixels per metre. -/
def stoppingOps : Ops Heap Unit :=
  specOps 50 (fun _ _ _ => (true, ())) (fun h _ => h.set 0 { h 0 with velocity := ⟨0, 0⟩ })
    (fun h _ => h)

/-- Collaborators in which a pair overlaps as long as the vertical position of
the body at address 1 is less than 1000, and resolution changes nothing; 50
pixels per metre. -/
def touchingOps : Ops Heap Unit :=
  specOps 50 (fun h _ _ => (decide ((h 1).position.y < 1000), ())) (fun h _ => h)
    (fun h _ => h)

/-- A heap holding an immovable body at address 0 and `sampleBody` at every
other address; no "is colliding" flag is set. -/
def restingHeap : Heap :=
  fun p => if p = 0 then { sampleBody with mass := 0, invMass := 0 } else sampleBody

/-- Collaborators in which a pair overlaps once the vertical position of the
body at address 1 exceeds 10000, and resolution changes nothing; 50 pixels per
metre. -/
def distantOps : Ops Heap Unit :=
  specOps 50 (fun h _ _ => (decide ((h 1).position.y > 10000), ())) (fun h _ => h)
    (fun h _ => h)

/-! ## Stability of `IsStatic` -/

/-- Whether a body is static is not changed by the three operations of the
injection loop (the flag write, `Body::AddForce`, `Body::AddTorque`), on
whichever body they act. -/
def Ops.StaticStable {σ κ : Type} (ops : Ops σ κ) : Prop :=
  (∀ s p v q, ops.IsStatic (ops.setIsColliding s p v) q = ops.IsStatic s q) ∧
  (∀ s p f q, ops.IsStatic (ops.AddForce s p f) q = ops.IsStatic s q) ∧
  (∀ s p t q, ops.IsStatic (ops.AddTorque s p t) q = ops.IsStatic s q)

/-! ## Insertion times -/

/-- The position, counted from 1, of the last `AddBody(b)` call of a sequence of
calls; 0 if the sequence has none. -/
def lastAdd (cmds : List World.Cmd) (b : BodyPtr) : Nat :=
  cmds.length - cmds.reverse.indexOf (World.Cmd.add b)

/-! ## Reference lists for the statements -/

/-- The index pairs tested by the inner loop for a fixed `i`, from `j = k` on. -/
def rowFrom (i k d : Nat) : List (Nat × Nat) := (List.range' k d).map (fun j => (i, j))

/-- The index pairs tested by the outer loop from `i = k` on, for `n` bodies. -/
def pairsFrom (n k d : Nat) : List (Nat × Nat) :=
  (List.range' k d).flatMap (fun i => rowFrom i (i + 1) (n - (i + 1)))

/-- The index pairs `(i, j)` with `i < j < n`, row by row. -/
def pairs (n : Nat) : List (Nat × Nat) := pairsFrom n 0 n

/-- Lexicographic order on index pairs. -/
def lexLt (p q : Nat × Nat) : Prop := p.1 < q.1 ∨ (p.1 = q.1 ∧ p.2 < q.2)

/-- Every recorded test read its two bodies at its two indices. -/
def ReadsAt (bodies : List BodyPtr) (es : List Event) : Prop :=
  ∀ t ∈ tests es, bodies[t.1.1]? = some t.2.1 ∧ bodies[t.1.2]? = some t.2.2

/-! # Theorems -/

/-! ## Machine arithmetic -/

theorem toSize_natCast (k : Nat) (h : k < SIZE_MOD) : toSize (k : Int) = k := by
  unfold toSize
  rw [← Int.natCast_mod, Nat.mod_eq_of_lt h]
  simp

theorem toSize_lt (i : Int) : toSize i < SIZE_MOD := by
  unfold toSize
  have h0 : (0 : Int) < (SIZE_MOD : Int) := by unfold SIZE_MOD; norm_num
  have h1 := Int.emod_nonneg i (ne_of_gt h0)
  have h2 := Int.emod_lt_of_pos i h0
  omega

theorem intSucc_natCast (k : Nat) (h : k < INT_MAX) :
    intSucc (k : Int) = ((k + 1 : Nat) : Int) := by
  unfold intSucc
  unfold INT_MAX at h
  omega

theorem sizeSub_one (n : Nat) (h1 : 1 ≤ n) (h2 : n < SIZE_MOD) : sizeSub n 1 = n - 1 := by
  unfold sizeSub
  unfold SIZE_MOD at *
  omega

theorem sizeSub_zero_one : sizeSub 0 1 = SIZE_MOD - 1 := by
  unfold sizeSub SIZE_MOD
  norm_num

theorem INT_MAX_lt : INT_MAX < SIZE_MOD := by
  unfold INT_MAX SIZE_MOD
  norm_num

/-! ## Traces -/

theorem tests_append (es fs : List Event) : tests (es ++ fs) = tests es ++ tests fs := by
  simp [tests, List.filterMap_append]

theorem pairsFrom_succ (n k d : Nat) :
    pairsFrom n k (d + 1) = rowFrom k (k + 1) (n - (k + 1)) ++ pairsFrom n (k + 1) d := by
  simp [pairsFrom, List.range'_succ]

theorem mem_rowFrom (i k d : Nat) (p : Nat × Nat) :
    p ∈ rowFrom i k d ↔ p.1 = i ∧ k ≤ p.2 ∧ p.2 < k + d := by
  obtain ⟨a, b⟩ := p
  simp only [rowFrom, List.mem_map, List.mem_range', Prod.mk.injEq]
  constructor
  · rintro ⟨j, ⟨m, hm, rfl⟩, rfl, rfl⟩
    omega
  · rintro ⟨rfl, h1, h2⟩
    exact ⟨b, ⟨b - k, by omega, by omega⟩, rfl, rfl⟩

theorem mem_pairsFrom (n : Nat) : ∀ (d k : Nat), k + d = n → ∀ p : Nat × Nat,
    (p ∈ pairsFrom n k d ↔ k ≤ p.1 ∧ p.1 < p.2 ∧ p.2 < n) := by
  intro d
  induction d with
  | zero => intro k hk p; simp [pairsFrom]; omega
  | succ d ih =>
    intro k hk p
    rw [pairsFrom_succ, List.mem_append, mem_rowFrom, ih (k + 1) (by omega) p]
    omega

theorem mem_pairs (n : Nat) (p : Nat × Nat) : p ∈ pairs n ↔ p.1 < p.2 ∧ p.2 < n := by
  rw [pairs, mem_pairsFrom n n 0 (by omega) p]
  omega

theorem rowFrom_pairwise (i : Nat) : ∀ (d k : Nat), (rowFrom i k d).Pairwise lexLt := by
  intro d
  induction d with
  | zero => intro k; simp [rowFrom]
  | succ d ih =>
    intro k
    have h : rowFrom i k (d + 1) = (i, k) :: rowFrom i (k + 1) d := by
      simp [rowFrom, List.range'_succ]
    rw [h, List.pairwise_cons]
    refine ⟨?_, ih (k + 1)⟩
    intro q hq
    rw [mem_rowFrom] at hq
    right
    exact ⟨hq.1.symm, by simp only; omega⟩

theorem pairsFrom_pairwise (n : Nat) : ∀ (d k : Nat), k + d = n →
    (pairsFrom n k d).Pairwise lexLt := by
  intro d
  induction d with
  | zero => intro k _; simp [pairsFrom]
  | succ d ih =>
    intro k hk
    rw [pairsFrom_succ, List.pairwise_append]
    refine ⟨rowFrom_pairwise k _ _, ih (k + 1) (by omega), ?_⟩
    intro p hp q hq
    rw [mem_rowFrom] at hp
    rw [mem_pairsFrom n d (k + 1) (by omega)] at hq
    left
    omega

theorem length_pairsFrom (n : Nat) : ∀ (d k : Nat), k + d = n →
    2 * (pairsFrom n k d).length = d * (d - 1) := by
  intro d
  induction d with
  | zero => intro k _; simp [pairsFrom]
  | succ d ih =>
    intro k hk
    rw [pairsFrom_succ, List.length_append, Nat.mul_add, ih (k + 1) (by omega)]
    have hrow : (rowFrom k (k + 1) (n - (k + 1))).length = d := by
      simp [rowFrom]; omega
    rw [hrow]
    cases d with
    | zero => rfl
    | succ e => simp only [Nat.add_sub_cancel]; ring

theorem length_pairs (n : Nat) : (pairs n).length = n * (n - 1) / 2 := by
  have h := length_pairsFrom n n 0 (by omega)
  rw [pairs]
  omega

namespace World

variable {σ κ : Type}

theorem checkInner_spec (ops : Ops σ κ) (bodies : List BodyPtr) (i : Nat)
    (hi : i < bodies.length) (hn : bodies.length ≤ INT_MAX) :
    ∀ (d k fuel : Nat) (s : σ), k + d = bodies.length → d + 1 ≤ fuel →
      ∃ s1, (checkInner ops bodies i fuel k s).result = some s1 ∧
        (tests (checkInner ops bodies i fuel k s).events).map Prod.fst = rowFrom i k d ∧
        ReadsAt bodies (checkInner ops bodies i fuel k s).events := by
  have hmax := INT_MAX_lt
  intro d
  induction d with
  | zero =>
    intro k fuel s hk hf
    obtain ⟨f, rfl⟩ : ∃ f, fuel = f + 1 := ⟨fuel - 1, by omega⟩
    have hts : toSize (k : Int) = k := toSize_natCast k (by omega)
    have hlt : ¬ k < bodies.length := by omega
    have hd : checkInner ops bodies i (f + 1) k s = ⟨[], some s⟩ := by
      unfold checkInner
      rw [hts, if_neg hlt]
    rw [hd]
    exact ⟨s, rfl, by simp [tests, rowFrom], by simp [ReadsAt, tests]⟩
  | succ d ih =>
    intro k fuel s hk hf
    obtain ⟨f, rfl⟩ : ∃ f, fuel = f + 1 := ⟨fuel - 1, by omega⟩
    have hts : toSize (k : Int) = k := toSize_natCast k (by omega)
    have hti : toSize (i : Int) = i := toSize_natCast i (by omega)
    have hsucc : intSucc (k : Int) = ((k + 1 : Nat) : Int) := intSucc_natCast k (by omega)
    have hklt : k < bodies.length := by omega
    have hgi : bodies[i]? = some bodies[i] := List.getElem?_eq_getElem hi
    have hgk : bodies[k]? = some bodies[k] := List.getElem?_eq_getElem hklt
    unfold checkInner
    rw [hts, hti, hsucc, if_pos hklt, hgi, hgk]
    dsimp only
    by_cases hc : (ops.IsColliding s bodies[i] bodies[k]).1 = true
    · obtain ⟨s1, h1, h2, h3⟩ := ih (k + 1) f
        (ops.setIsColliding (ops.setIsColliding
          (ops.ResolveCollision s (ops.IsColliding s bodies[i] bodies[k]).2) bodies[i] true)
          bodies[k] true) (by omega) (by omega)
      refine ⟨s1, ?_, ?_, ?_⟩
      · simpa [hc, Run.after] using h1
      · simp only [hc, Run.after, Bool.not_true, Bool.false_eq_true, if_false]
        rw [tests_append, List.map_append, h2]
        simp [tests, Event.test?, rowFrom, List.range'_succ]
      · simp only [hc, Run.after, Bool.not_true, Bool.false_eq_true, if_false]
        intro t ht
        rw [tests_append, List.mem_append] at ht
        rcases ht with ht | ht
        · simp [tests, Event.test?] at ht
          subst ht
          exact ⟨hgi, hgk⟩
        · exact h3 t ht
    · obtain ⟨s1, h1, h2, h3⟩ := ih (k + 1) f s (by omega) (by omega)
      have hc2 : (ops.IsColliding s bodies[i] bodies[k]).1 = false := by simpa using hc
      refine ⟨s1, ?_, ?_, ?_⟩
      · simpa [hc2, Run.after] using h1
      · simp only [hc2, Run.after, Bool.not_false, if_true]
        rw [tests_append, List.map_append, h2]
        simp [tests, Event.test?, rowFrom, List.range'_succ]
      · simp only [hc2, Run.after, Bool.not_false, if_true]
        intro t ht
        rw [tests_append, List.mem_append] at ht
        rcases ht with ht | ht
        · simp [tests, Event.test?] at ht
          subst ht
          exact ⟨hgi, hgk⟩
        · exact h3 t ht

theorem checkOuter_spec (ops : Ops σ κ) (bodies : List BodyPtr)
    (h1 : 1 ≤ bodies.length) (hn : bodies.length ≤ INT_MAX) :
    ∀ (d i fuel : Nat) (s : σ), i + d = bodies.length → d + 1 ≤ fuel →
      ∃ s1, (checkOuter ops bodies fuel i s).result = some s1 ∧
        (tests (checkOuter ops bodies fuel i s).events).map Prod.fst
          = pairsFrom bodies.length i d ∧
        ReadsAt bodies (checkOuter ops bodies fuel i s).events := by
  have hmax := INT_MAX_lt
  have hsub : sizeSub bodies.length 1 = bodies.length - 1 := sizeSub_one _ h1 (by omega)
  intro d
  induction d with
  | zero =>
    intro i fuel s hi hf
    obtain ⟨f, rfl⟩ : ∃ f, fuel = f + 1 := ⟨fuel - 1, by omega⟩
    have hti : toSize (i : Int) = i := toSize_natCast i (by omega)
    have hle : ¬ i ≤ bodies.length - 1 := by omega
    have hd : checkOuter ops bodies (f + 1) i s = ⟨[], some s⟩ := by
      unfold checkOuter
      rw [hti, hsub, if_neg hle]
    rw [hd]
    exact ⟨s, rfl, by simp [tests, pairsFrom], by simp [ReadsAt, tests]⟩
  | succ d ih =>
    intro i fuel s hi hf
    obtain ⟨f, rfl⟩ : ∃ f, fuel = f + 1 := ⟨fuel - 1, by omega⟩
    have hti : toSize (i : Int) = i := toSize_natCast i (by omega)
    have hsucc : intSucc (i : Int) = ((i + 1 : Nat) : Int) := intSucc_natCast i (by omega)
    have hle : i ≤ bodies.length - 1 := by omega
    obtain ⟨s1, a1, a2, a3⟩ := checkInner_spec ops bodies i (by omega) hn
      (bodies.length - (i + 1)) (i + 1) f s (by omega) (by omega)
    obtain ⟨s2, b1, b2, b3⟩ := ih (i + 1) f s1 (by omega) (by omega)
    have hd : checkOuter ops bodies (f + 1) i s
        = (checkOuter ops bodies f ((i + 1 : Nat) : Int) s1).after
            (checkInner ops bodies i f ((i + 1 : Nat) : Int) s).events := by
      conv_lhs => unfold checkOuter
      rw [hti, hsub, if_pos hle, hsucc]
      simp only [a1]
    rw [hd]
    refine ⟨s2, by simpa [Run.after] using b1, ?_, ?_⟩
    · simp only [Run.after]
      rw [tests_append, List.map_append, a2, b2, pairsFrom_succ]
    · intro t ht
      simp only [Run.after] at ht
      rw [tests_append, List.mem_append] at ht
      rcases ht with ht | ht
      · exact a3 t ht
      · exact b3 t ht

/-! ## The range-based loops -/

theorem forEach_single {α : Type} (ev : α → Event) (f : σ → α → σ) (l : List α) (s : σ) :
    (forEach (fun t a => ([ev a], f t a)) l s).1 = l.map ev := by
  induction l generalizing s with
  | nil => rfl
  | cons a as ih => simp [forEach, ih]

theorem forEach_events_forall {α : Type} (P : Event → Prop) (body : σ → α → List Event × σ)
    (hbody : ∀ s a, ∀ e ∈ (body s a).1, P e) (l : List α) (s : σ) :
    ∀ e ∈ (forEach body l s).1, P e := by
  induction l generalizing s with
  | nil => intro e he; simp [forEach] at he
  | cons a as ih =>
    intro e he
    simp only [forEach, List.mem_append] at he
    rcases he with he | he
    · exact hbody s a e he
    · exact ih _ e he

theorem injectBody_events (ops : Ops σ κ) (w : World) (s : σ) (body : BodyPtr) :
    ∀ e ∈ (injectBody ops w s body).1,
      (∃ f, e = Event.AddForce body f) ∨ (∃ t, e = Event.AddTorque body t) := by
  intro e he
  unfold injectBody at he
  split at he
  · simp at he
  · simp only [List.mem_cons, List.mem_append] at he
    rcases he with he | he | he
    · exact Or.inl ⟨_, he⟩
    · rw [forEach_single (fun force => Event.AddForce body force)
        (fun t force => ops.AddForce t body force)] at he
      obtain ⟨f, _, rfl⟩ := List.mem_map.1 he
      exact Or.inl ⟨f, rfl⟩
    · rw [forEach_single (fun torque => Event.AddTorque body torque)
        (fun t torque => ops.AddTorque t body torque)] at he
      obtain ⟨t, _, rfl⟩ := List.mem_map.1 he
      exact Or.inr ⟨t, rfl⟩

theorem inject_events (ops : Ops σ κ) (w : World) (s : σ) :
    ∀ e ∈ (inject ops w s).1,
      ∃ body ∈ w.bodies, (∃ f, e = Event.AddForce body f) ∨ (∃ t, e = Event.AddTorque body t) := by
  unfold inject
  generalize w.bodies = l
  induction l generalizing s with
  | nil => intro e he; simp [forEach] at he
  | cons a as ih =>
    intro e he
    simp only [forEach, List.mem_append] at he
    rcases he with he | he
    · exact ⟨a, List.mem_cons_self _ _, injectBody_events ops w s a e he⟩
    · obtain ⟨b, hb, h⟩ := ih _ e he
      exact ⟨b, List.mem_cons_of_mem _ hb, h⟩

/-! ## The index loops, for every amount of fuel -/

theorem checkInner_events (ops : Ops σ κ) (bodies : List BodyPtr) (i : Int) :
    ∀ (fuel : Nat) (j : Int) (s : σ), ∀ e ∈ (checkInner ops bodies i fuel j s).events,
      ∃ a ∈ bodies, ∃ b ∈ bodies,
        (∃ m n, e = Event.IsColliding m n a b) ∨ e = Event.ResolveCollision a b := by
  intro fuel
  induction fuel with
  | zero => intro j s e he; simp [checkInner] at he
  | succ f ih =>
    intro j s e he
    unfold checkInner at he
    split at he
    · split at he
      · rename_i bodyA bodyB hA hB
        have hA1 : bodyA ∈ bodies := List.getElem?_mem hA
        have hB1 : bodyB ∈ bodies := List.getElem?_mem hB
        dsimp only at he
        split at he
        · simp only [Run.after, List.mem_append, List.mem_singleton] at he
          rcases he with he | he
          · exact ⟨bodyA, hA1, bodyB, hB1, Or.inl ⟨_, _, he⟩⟩
          · exact ih _ _ e he
        · simp only [Run.after, List.mem_append, List.mem_cons, List.mem_singleton,
            List.not_mem_nil, or_false] at he
          rcases he with (he | he) | he
          · exact ⟨bodyA, hA1, bodyB, hB1, Or.inl ⟨_, _, he⟩⟩
          · exact ⟨bodyA, hA1, bodyB, hB1, Or.inr he⟩
          · exact ih _ _ e he
      · simp at he
    · simp at he

theorem checkOuter_events (ops : Ops σ κ) (bodies : List BodyPtr) :
    ∀ (fuel : Nat) (i : Int) (s : σ), ∀ e ∈ (checkOuter ops bodies fuel i s).events,
      ∃ a ∈ bodies, ∃ b ∈ bodies,
        (∃ m n, e = Event.IsColliding m n a b) ∨ e = Event.ResolveCollision a b := by
  intro fuel
  induction fuel with
  | zero => intro i s e he; simp [checkOuter] at he
  | succ f ih =>
    intro i s e he
    unfold checkOuter at he
    split at he
    · dsimp only at he
      split at he
      · exact checkInner_events ops bodies i f _ s e he
      · simp only [Run.after, List.mem_append] at he
        rcases he with he | he
        · exact checkInner_events ops bodies i f _ s e he
        · exact ih _ _ e he
    · simp at he

theorem checkOuter_nil (ops : Ops σ κ) :
    ∀ (fuel : Nat) (i : Int) (s : σ), checkOuter ops [] fuel i s = ⟨[], none⟩ := by
  intro fuel
  induction fuel with
  | zero => intro i s; rfl
  | succ f ih =>
    intro i s
    have hcond : toSize i ≤ sizeSub ([] : List BodyPtr).length 1 := by
      have h := toSize_lt i
      rw [List.length_nil, sizeSub_zero_one]
      omega
    unfold checkOuter
    rw [if_pos hcond]
    cases f with
    | zero => rfl
    | succ g =>
      have hin : checkInner ops [] i (g + 1) (intSucc i) s = ⟨[], some s⟩ := by
        unfold checkInner
        simp
      simp only [hin, ih, Run.after, List.append_nil]

theorem pairwise_phase_of_const (l : List Event) (k : Nat) (h : ∀ e ∈ l, e.phase = k) :
    l.Pairwise (fun e f => e.phase ≤ f.phase) := by
  induction l with
  | nil => exact List.Pairwise.nil
  | cons a as ih =>
    refine List.Pairwise.cons ?_ (ih (fun e he => h e (List.mem_cons_of_mem _ he)))
    intro b hb
    rw [h a (List.mem_cons_self _ _), h b (List.mem_cons_of_mem _ hb)]

theorem pairwise_phase_five (l1 l2 l3 l4 l5 : List Event)
    (h1 : ∀ e ∈ l1, e.phase = 1) (h2 : ∀ e ∈ l2, e.phase = 2) (h3 : ∀ e ∈ l3, e.phase = 3)
    (h4 : ∀ e ∈ l4, e.phase = 4) (h5 : ∀ e ∈ l5, e.phase = 5) :
    (l1 ++ l2 ++ l3 ++ l4 ++ l5).Pairwise (fun e f => e.phase ≤ f.phase) := by
  simp only [List.pairwise_append, List.mem_append]
  refine ⟨⟨⟨⟨pairwise_phase_of_const l1 1 h1, pairwise_phase_of_const l2 2 h2, ?_⟩,
    pairwise_phase_of_const l3 3 h3, ?_⟩, pairwise_phase_of_const l4 4 h4, ?_⟩,
    pairwise_phase_of_const l5 5 h5, ?_⟩
  · intro a ha b hb
    rw [h1 a ha, h2 b hb]
    omega
  · rintro a (ha | ha) b hb
    · rw [h1 a ha, h3 b hb]; omega
    · rw [h2 a ha, h3 b hb]; omega
  · rintro a ((ha | ha) | ha) b hb
    · rw [h1 a ha, h4 b hb]; omega
    · rw [h2 a ha, h4 b hb]; omega
    · rw [h3 a ha, h4 b hb]; omega
  · rintro a (((ha | ha) | ha) | ha) b hb
    · rw [h1 a ha, h5 b hb]; omega
    · rw [h2 a ha, h5 b hb]; omega
    · rw [h3 a ha, h5 b hb]; omega
    · rw [h4 a ha, h5 b hb]; omega

theorem Update_events (ops : Ops σ κ) (w : World) (deltaTime : ℚ) (fuel : Nat) (s : σ) :
    ∃ s4, (Update ops w deltaTime fuel s).events
      = (inject ops w s).1
        ++ w.bodies.map (fun body => Event.IntegrateForces body deltaTime)
        ++ w.constraints.map (fun constraint => Event.Solve constraint)
        ++ w.bodies.map (fun body => Event.IntegrateVelocities body deltaTime)
        ++ (CheckCollisions ops w fuel s4).events ∧
      (Update ops w deltaTime fuel s).result
        = (CheckCollisions ops w fuel s4).result.map (fun t => (w, t)) := by
  refine ⟨_, ?_, rfl⟩
  simp only [Update]
  rw [forEach_single (fun body => Event.IntegrateForces body deltaTime)
      (fun t body => ops.IntegrateForces t body deltaTime),
    forEach_single (fun constraint => Event.Solve constraint)
      (fun t constraint => ops.Solve t constraint),
    forEach_single (fun body => Event.IntegrateVelocities body deltaTime)
      (fun t body => ops.IntegrateVelocities t body deltaTime)]

/-! ## The claims about the stepping loop -/

/-- C1: for every world, heap, time step and amount of fuel, the calls made by
`World::Update` are, in this order: calls of `AddForce`/`AddTorque` only (the
injection); `IntegrateForces(deltaTime)` on every body in insertion order;
`Solve()` on every constraint once, in insertion order;
`IntegrateVelocities(deltaTime)` on every body in insertion order; then calls of
`IsColliding`/`ResolveCollision` only (the collision check).  In particular
the phases of the calls never decrease along the trace: no `IntegrateForces`
call comes after a `Solve` call, no `Solve` call after an
`IntegrateVelocities` call, no `IntegrateVelocities` call after an
`IsColliding` call. -/
theorem Update_phase_order (ops : Ops σ κ) (w : World) (deltaTime : ℚ) (fuel : Nat) (s : σ) :
    (∃ e1 e5 : List Event,
      (Update ops w deltaTime fuel s).events
        = e1
          ++ w.bodies.map (fun body => Event.IntegrateForces body deltaTime)
          ++ w.constraints.map (fun constraint => Event.Solve constraint)
          ++ w.bodies.map (fun body => Event.IntegrateVelocities body deltaTime)
          ++ e5 ∧
      (∀ e ∈ e1, (∃ b f, e = Event.AddForce b f) ∨ (∃ b t, e = Event.AddTorque b t)) ∧
      (∀ e ∈ e5, (∃ i j a b, e = Event.IsColliding i j a b) ∨
        (∃ a b, e = Event.ResolveCollision a b))) ∧
    (Update ops w deltaTime fuel s).events.Pairwise (fun e f => e.phase ≤ f.phase) := by
  obtain ⟨s4, hev, -⟩ := Update_events ops w deltaTime fuel s
  have h1 : ∀ e ∈ (inject ops w s).1,
      (∃ b f, e = Event.AddForce b f) ∨ (∃ b t, e = Event.AddTorque b t) := by
    intro e he
    obtain ⟨b, -, h | h⟩ := inject_events ops w s e he
    · exact Or.inl ⟨b, h⟩
    · exact Or.inr ⟨b, h⟩
  have h5 : ∀ e ∈ (CheckCollisions ops w fuel s4).events,
      (∃ i j a b, e = Event.IsColliding i j a b) ∨ (∃ a b, e = Event.ResolveCollision a b) := by
    intro e he
    obtain ⟨a, -, b, -, h | h⟩ := checkOuter_events ops w.bodies fuel 0 s4 e he
    · obtain ⟨m, n, h⟩ := h
      exact Or.inl ⟨m, n, a, b, h⟩
    · exact Or.inr ⟨a, b, h⟩
  refine ⟨⟨_, _, hev, h1, h5⟩, ?_⟩
  rw [hev]
  apply pairwise_phase_five
  · intro e he
    rcases h1 e he with ⟨b, f, rfl⟩ | ⟨b, t, rfl⟩ <;> rfl
  · intro e he
    obtain ⟨b, -, rfl⟩ := List.mem_map.1 he
    rfl
  · intro e he
    obtain ⟨c, -, rfl⟩ := List.mem_map.1 he
    rfl
  · intro e he
    obtain ⟨b, -, rfl⟩ := List.mem_map.1 he
    rfl
  · intro e he
    rcases h5 e he with ⟨i, j, a, b, rfl⟩ | ⟨a, b, rfl⟩ <;> rfl

/-- C4: for a collection of `n` bodies with `1 ≤ n` (and `n` within the range of
the `int` index), `World::CheckCollisions` returns, and its `IsColliding`
calls are exactly the index pairs `(i, j)` with `i < j < n`, each once, in
lexicographic order, `n * (n - 1) / 2` calls in total, each call made on
`bodies[i]` and `bodies[j]`; no index is tested against itself and no
unordered pair is tested twice. -/
theorem CheckCollisions_tests_every_pair_once (ops : Ops σ κ) (w : World) (s : σ) (fuel : Nat)
    (h1 : 1 ≤ w.bodies.length) (hn : w.bodies.length ≤ INT_MAX)
    (hf : w.bodies.length + 1 ≤ fuel) :
    ((CheckCollisions ops w fuel s).result).isSome = true ∧
    (∀ i j, (i, j) ∈ (tests (CheckCollisions ops w fuel s).events).map Prod.fst
      ↔ i < j ∧ j < w.bodies.length) ∧
    ((tests (CheckCollisions ops w fuel s).events).map Prod.fst).Pairwise lexLt ∧
    ((tests (CheckCollisions ops w fuel s).events).map Prod.fst).Nodup ∧
    (tests (CheckCollisions ops w fuel s).events).length
      = w.bodies.length * (w.bodies.length - 1) / 2 ∧
    (∀ t ∈ tests (CheckCollisions ops w fuel s).events,
      w.bodies[t.1.1]? = some t.2.1 ∧ w.bodies[t.1.2]? = some t.2.2) ∧
    (∀ i j, (i, j) ∈ (tests (CheckCollisions ops w fuel s).events).map Prod.fst →
      i ≠ j ∧ (j, i) ∉ (tests (CheckCollisions ops w fuel s).events).map Prod.fst) ∧
    (tests (CheckCollisions ops w fuel s).events).map Prod.fst = pairs w.bodies.length := by
  obtain ⟨s1, a1, a2, a3⟩ := checkOuter_spec ops w.bodies h1 hn w.bodies.length 0 fuel s
    (by omega) (by omega)
  have hT : (tests (CheckCollisions ops w fuel s).events).map Prod.fst
      = pairs w.bodies.length := a2
  have hpw : (pairs w.bodies.length).Pairwise lexLt :=
    pairsFrom_pairwise _ _ 0 (by omega)
  have hmem : ∀ i j, (i, j) ∈ pairs w.bodies.length ↔ i < j ∧ j < w.bodies.length :=
    fun i j => mem_pairs _ (i, j)
  refine ⟨?_, ?_, ?_, ?_, ?_, a3, ?_, hT⟩
  · have : (CheckCollisions ops w fuel s).result = some s1 := a1
    rw [this]
    rfl
  · rw [hT]
    exact hmem
  · rw [hT]
    exact hpw
  · rw [hT]
    refine hpw.imp ?_
    intro p q hpq heq
    subst heq
    rcases hpq with h | ⟨-, h⟩ <;> omega
  · have hl := congrArg List.length hT
    rw [List.length_map, length_pairs] at hl
    exact hl
  · rw [hT]
    intro i j hij
    rw [hmem] at hij
    refine ⟨by omega, ?_⟩
    rw [hmem]
    omega

/-- Witness of C4: the sample world of two bodies, with three units of fuel. -/
theorem CheckCollisions_tests_every_pair_once_witness :
    ((CheckCollisions sampleOps sampleWorld 3 sampleHeap).result).isSome = true ∧
    (tests (CheckCollisions sampleOps sampleWorld 3 sampleHeap).events).map Prod.fst
      = pairs sampleWorld.bodies.length :=
  have h := CheckCollisions_tests_every_pair_once sampleOps sampleWorld sampleHeap 3
    (by decide) (by decide) (by decide)
  ⟨h.1, h.2.2.2.2.2.2.2⟩

/-- C10, at the empty world: with no body in the collection the loop condition
`i <= bodies.size() - 1` compares with `2 ^ 64 - 1` and holds for every value
of `i`, so `World::CheckCollisions` makes no call and never returns, whatever
the fuel; and neither does `World::Update`. -/
theorem Update_empty_world_never_returns (ops : Ops σ κ) (G : ℚ)
    (constraints : List ConstraintPtr) (forces : List Vec2) (torques : List ℚ)
    (deltaTime : ℚ) (fuel : Nat) (s : σ) :
    (∀ i : Int, toSize i ≤ sizeSub ([] : List BodyPtr).length 1) ∧
    CheckCollisions ops ⟨G, [], constraints, forces, torques⟩ fuel s = ⟨[], none⟩ ∧
    (Update ops ⟨G, [], constraints, forces, torques⟩ deltaTime fuel s).result = none := by
  refine ⟨?_, checkOuter_nil ops fuel 0 s, ?_⟩
  · intro i
    have h := toSize_lt i
    rw [List.length_nil, sizeSub_zero_one]
    omega
  · obtain ⟨s4, -, hres⟩ := Update_events ops ⟨G, [], constraints, forces, torques⟩
      deltaTime fuel s
    rw [hres]
    have h : CheckCollisions ops ⟨G, [], constraints, forces, torques⟩ fuel s4 = ⟨[], none⟩ :=
      checkOuter_nil ops fuel 0 s4
    rw [h]
    rfl

end World

/-! ## The stepping loop over `Body` objects -/

theorem Heap.set_same (h : Heap) (p : BodyPtr) (b : Body) : (h.set p b) p = b := by
  simp [Heap.set]

theorem Heap.set_other (h : Heap) (p q : BodyPtr) (b : Body) (hq : q ≠ p) :
    (h.set p b) q = h q := by
  simp [Heap.set, hq]

theorem Heap.set_set (h : Heap) (p : BodyPtr) (b c : Body) :
    (h.set p b).set p c = h.set p c := by
  funext q
  by_cases hq : q = p <;> simp [Heap.set, hq]

theorem Heap.set_self (h : Heap) (p : BodyPtr) : h.set p (h p) = h := by
  funext q
  by_cases hq : q = p <;> simp [Heap.set, hq]

namespace World

variable {κ : Type}

theorem forEach_heap {α : Type} (ev : α → Event) (f : Body → α → Body) (p : BodyPtr)
    (l : List α) (h : Heap) :
    forEach (fun t a => ([ev a], t.set p (f (t p) a))) l h
      = (l.map ev, h.set p (l.foldl f (h p))) := by
  induction l generalizing h with
  | nil => simp [forEach, Heap.set_self]
  | cons a as ih =>
    simp only [forEach, ih, Heap.set_same, Heap.set_set, List.map_cons, List.foldl_cons,
      List.singleton_append]

theorem injectBody_spec (ppm : ℚ) (detect : Heap → BodyPtr → BodyPtr → Bool × κ)
    (resolve : Heap → κ → Heap) (solve : Heap → ConstraintPtr → Heap)
    (w : World) (h : Heap) (p : BodyPtr) :
    injectBody (specOps ppm detect resolve solve) w h p
      = (injectCalls w ppm (h p) p, h.set p ((h p).injected w ppm)) := by
  unfold injectBody injectCalls Body.injected
  by_cases hs : (h p).IsStatic = true
  · simp [specOps, hs, Heap.set_self]
  · simp only [specOps, hs, Bool.false_eq_true, if_false]
    rw [forEach_heap (fun force => Event.AddForce p force) Body.AddForce p,
      forEach_heap (fun torque => Event.AddTorque p torque) Body.AddTorque p]
    simp only [Heap.set_same, Heap.set_set]

theorem foldl_preserves {α γ : Type} (π : Body → γ) (f : Body → α → Body)
    (hf : ∀ b a, π (f b a) = π b) (l : List α) (b : Body) : π (l.foldl f b) = π b := by
  induction l generalizing b with
  | nil => rfl
  | cons a as ih => rw [List.foldl_cons, ih, hf]

theorem injected_preserves {γ : Type} (π : Body → γ)
    (h0 : ∀ b : Body, π { b with isColliding := false } = π b)
    (h1 : ∀ b f, π (Body.AddForce b f) = π b) (h2 : ∀ b t, π (Body.AddTorque b t) = π b)
    (w : World) (ppm : ℚ) (b : Body) : π (b.injected w ppm) = π b := by
  unfold Body.injected
  split
  · rfl
  · rw [foldl_preserves π Body.AddTorque h2, foldl_preserves π Body.AddForce h1, h1, h0]

theorem injectCalls_injected (w : World) (ppm : ℚ) (b : Body) (p : BodyPtr) :
    injectCalls w ppm (b.injected w ppm) p = injectCalls w ppm b p := by
  have e1 := injected_preserves Body.invMass (fun _ => rfl) (fun _ _ => rfl) (fun _ _ => rfl)
    w ppm b
  have e2 := injected_preserves Body.mass (fun _ => rfl) (fun _ _ => rfl) (fun _ _ => rfl)
    w ppm b
  have e3 := injected_preserves Body.gravityScale (fun _ => rfl) (fun _ _ => rfl)
    (fun _ _ => rfl) w ppm b
  simp only [injectCalls, Body.IsStatic, e1, e2, e3]

theorem forEach_bodies (E : Body → BodyPtr → List Event) (F : Body → Body)
    (hE : ∀ b p, E (F b) p = E b p) (l : List BodyPtr) (h : Heap) :
    forEach (fun t p => (E (t p) p, t.set p (F (t p)))) l h
      = (l.flatMap (fun p => E (h p) p), fun q => F^[l.count q] (h q)) := by
  induction l generalizing h with
  | nil => simp [forEach]
  | cons a as ih =>
    simp only [forEach, ih, List.flatMap_cons]
    refine Prod.ext ?_ ?_
    · simp only
      congr 1
      apply List.flatMap_congr
      intro q _
      by_cases hq : q = a
      · subst hq
        rw [Heap.set_same, hE]
      · rw [Heap.set_other _ _ _ _ hq]
    · funext q
      by_cases hq : q = a
      · subst hq
        simp only [Heap.set_same, List.count_cons_self, Function.iterate_succ_apply]
      · simp only [Heap.set_other _ _ _ _ hq, List.count_cons_of_ne hq]

theorem inject_spec (ppm : ℚ) (detect : Heap → BodyPtr → BodyPtr → Bool × κ)
    (resolve : Heap → κ → Heap) (solve : Heap → ConstraintPtr → Heap)
    (w : World) (h : Heap) :
    inject (specOps ppm detect resolve solve) w h
      = (w.bodies.flatMap (fun p => injectCalls w ppm (h p) p),
         fun q => (Body.injected w ppm)^[w.bodies.count q] (h q)) := by
  have hfun : injectBody (specOps ppm detect resolve solve) w
      = fun t p => (injectCalls w ppm (t p) p, t.set p ((t p).injected w ppm)) := by
    funext t p
    exact injectBody_spec ppm detect resolve solve w t p
  unfold inject
  rw [hfun]
  exact forEach_bodies (injectCalls w ppm) (Body.injected w ppm)
    (injectCalls_injected w ppm) w.bodies h

theorem injected_of_static (w : World) (ppm : ℚ) (b : Body) (hb : b.IsStatic = true) :
    b.injected w ppm = b := by
  simp [Body.injected, hb]

theorem injected_iterate_of_static (w : World) (ppm : ℚ) (b : Body) (hb : b.IsStatic = true)
    (n : Nat) : (Body.injected w ppm)^[n] b = b :=
  Function.iterate_fixed (injected_of_static w ppm b hb) n

theorem checkInner_no_collision (ops : Ops σ κ) (bodies : List BodyPtr) (i : Int)
    (hdet : ∀ s a b, (ops.IsColliding s a b).1 = false) :
    ∀ (fuel : Nat) (j : Int) (s s1 : σ),
      (checkInner ops bodies i fuel j s).result = some s1 → s1 = s := by
  intro fuel
  induction fuel with
  | zero => intro j s s1 h; simp [checkInner] at h
  | succ f ih =>
    intro j s s1 h
    unfold checkInner at h
    split at h
    · split at h
      · simp only [hdet, Bool.not_false, if_true, Run.after] at h
        exact ih _ _ _ h
      · simp at h
    · simp only [Option.some.injEq] at h
      exact h.symm

theorem checkOuter_no_collision (ops : Ops σ κ) (bodies : List BodyPtr)
    (hdet : ∀ s a b, (ops.IsColliding s a b).1 = false) :
    ∀ (fuel : Nat) (i : Int) (s s1 : σ),
      (checkOuter ops bodies fuel i s).result = some s1 → s1 = s := by
  intro fuel
  induction fuel with
  | zero => intro i s s1 h; simp [checkOuter] at h
  | succ f ih =>
    intro i s s1 h
    unfold checkOuter at h
    split at h
    · dsimp only at h
      split at h
      · rename_i hnone
        rw [hnone] at h
        simp at h
      · rename_i s2 hsome
        simp only [Run.after] at h
        have e1 := ih _ _ _ h
        have e2 := checkInner_no_collision ops bodies i hdet _ _ _ _ hsome
        rw [e1, e2]
    · simp only [Option.some.injEq] at h
      exact h.symm

/-- The heap `World::Update` returns with when there is no constraint and no
pair of bodies is found colliding: every object has gone through the
injection, `IntegrateForces` and `IntegrateVelocities`, once per occurrence of
its address in the collection. -/
theorem Update_spec_result (ppm : ℚ) (detect : Heap → BodyPtr → BodyPtr → Bool × κ)
    (resolve : Heap → κ → Heap) (solve : Heap → ConstraintPtr → Heap)
    (w : World) (h : Heap) (dt : ℚ) (fuel : Nat)
    (h1 : 1 ≤ w.bodies.length) (hn : w.bodies.length ≤ INT_MAX)
    (hf : w.bodies.length + 1 ≤ fuel) (hcons : w.constraints = [])
    (hdet : ∀ t a c, (detect t a c).1 = false) :
    (Update (specOps ppm detect resolve solve) w dt fuel h).result
      = some (w, fun q =>
          (fun b : Body => b.IntegrateVelocities dt)^[w.bodies.count q]
            ((fun b : Body => b.IntegrateForces dt)^[w.bodies.count q]
              ((Body.injected w ppm)^[w.bodies.count q] (h q)))) := by
  have e2 := fun t => forEach_bodies
    (fun _ p => [Event.IntegrateForces p dt]) (fun b : Body => b.IntegrateForces dt)
    (fun _ _ => rfl) w.bodies t
  have e4 := fun t => forEach_bodies
    (fun _ p => [Event.IntegrateVelocities p dt]) (fun b : Body => b.IntegrateVelocities dt)
    (fun _ _ => rfl) w.bodies t
  have hres : ∀ t, (CheckCollisions (specOps ppm detect resolve solve) w fuel t).result
      = some t := by
    intro t
    obtain ⟨t1, a1, -, -⟩ := checkOuter_spec (specOps ppm detect resolve solve) w.bodies h1 hn
      w.bodies.length 0 fuel t (by omega) (by omega)
    have := checkOuter_no_collision (specOps ppm detect resolve solve) w.bodies
      (fun s a b => hdet s a b) fuel _ t t1 a1
    subst this
    exact a1
  simp only [Update, hcons, forEach, hres, Option.map_some']
  rw [inject_spec]
  have e2' := congrArg Prod.snd (e2 (fun q => (Body.injected w ppm)^[w.bodies.count q] (h q)))
  simp only [specOps] at e2' ⊢
  rw [e2']
  have e4' := congrArg Prod.snd (e4 (fun q => (fun b : Body => b.IntegrateForces dt)^[w.bodies.count q]
    ((Body.injected w ppm)^[w.bodies.count q] (h q))))
  simp only at e4'
  rw [e4']

theorem checkInner_no_resolve (ops : Ops σ κ) (bodies : List BodyPtr) (i : Int) :
    ∀ (fuel : Nat) (j : Int) (s s1 : σ),
      (∀ a c, Event.ResolveCollision a c ∉ (checkInner ops bodies i fuel j s).events) →
      (checkInner ops bodies i fuel j s).result = some s1 → s1 = s := by
  intro fuel
  induction fuel with
  | zero => intro j s s1 _ h; simp [checkInner] at h
  | succ f ih =>
    intro j s s1 hno h
    unfold checkInner at hno h
    split at h
    · rename_i hlt
      rw [if_pos hlt] at hno
      split at h
      · rename_i bodyA bodyB hA hB
        simp only [hA, hB] at hno
        by_cases hc : (ops.IsColliding s bodyA bodyB).1 = true
        · exfalso
          refine hno bodyA bodyB ?_
          simp [hc, Run.after]
        · have hc2 : (ops.IsColliding s bodyA bodyB).1 = false := by simpa using hc
          simp only [hc2, Bool.not_false, if_true, Run.after] at hno h
          refine ih _ _ _ ?_ h
          intro a c hm
          exact hno a c (List.mem_append_right _ hm)
      · simp at h
    · simp only [Option.some.injEq] at h
      exact h.symm

theorem checkOuter_no_resolve (ops : Ops σ κ) (bodies : List BodyPtr) :
    ∀ (fuel : Nat) (i : Int) (s s1 : σ),
      (∀ a c, Event.ResolveCollision a c ∉ (checkOuter ops bodies fuel i s).events) →
      (checkOuter ops bodies fuel i s).result = some s1 → s1 = s := by
  intro fuel
  induction fuel with
  | zero => intro i s s1 _ h; simp [checkOuter] at h
  | succ f ih =>
    intro i s s1 hno h
    unfold checkOuter at hno h
    split at h
    · rename_i hle
      rw [if_pos hle] at hno
      dsimp only at hno h
      split at h
      · rename_i hnone
        rw [hnone] at h
        simp at h
      · rename_i s2 hsome
        simp only [hsome, Run.after] at hno h
        have e2 := checkInner_no_resolve ops bodies i f _ s s2
          (fun a c hm => hno a c (List.mem_append_left _ hm)) hsome
        have e1 := ih _ _ _ (fun a c hm => hno a c (List.mem_append_right _ hm)) h
        rw [e1, e2]
    · simp only [Option.some.injEq] at h
      exact h.symm

/-- With no constraint, `World::Update` hands to the collision check the heap
in which every object has gone through the injection, `IntegrateForces` and
`IntegrateVelocities`, once per occurrence of its address in the collection; its
trace ends with the calls of the collision check and its result is that of the
collision check. -/
theorem Update_spec_split (ppm : ℚ) (detect : Heap → BodyPtr → BodyPtr → Bool × κ)
    (resolve : Heap → κ → Heap) (solve : Heap → ConstraintPtr → Heap)
    (w : World) (h : Heap) (dt : ℚ) (fuel : Nat) (hcons : w.constraints = []) :
    ∃ pre, (Update (specOps ppm detect resolve solve) w dt fuel h).events
        = pre ++ (CheckCollisions (specOps ppm detect resolve solve) w fuel
            (fun q => (fun b : Body => b.IntegrateVelocities dt)^[w.bodies.count q]
              ((fun b : Body => b.IntegrateForces dt)^[w.bodies.count q]
                ((Body.injected w ppm)^[w.bodies.count q] (h q))))).events ∧
      (Update (specOps ppm detect resolve solve) w dt fuel h).result
        = (CheckCollisions (specOps ppm detect resolve solve) w fuel
            (fun q => (fun b : Body => b.IntegrateVelocities dt)^[w.bodies.count q]
              ((fun b : Body => b.IntegrateForces dt)^[w.bodies.count q]
                ((Body.injected w ppm)^[w.bodies.count q] (h q))))).result.map
          (fun t => (w, t)) := by
  have e2 := fun t => forEach_bodies
    (fun _ p => [Event.IntegrateForces p dt]) (fun b : Body => b.IntegrateForces dt)
    (fun _ _ => rfl) w.bodies t
  have e4 := fun t => forEach_bodies
    (fun _ p => [Event.IntegrateVelocities p dt]) (fun b : Body => b.IntegrateVelocities dt)
    (fun _ _ => rfl) w.bodies t
  have e2' := congrArg Prod.snd (e2 (fun q => (Body.injected w ppm)^[w.bodies.count q] (h q)))
  have e4' := congrArg Prod.snd (e4 (fun q =>
    (fun b : Body => b.IntegrateForces dt)^[w.bodies.count q]
      ((Body.injected w ppm)^[w.bodies.count q] (h q))))
  simp only at e2' e4'
  have hheap : (forEach (fun t body => ([Event.IntegrateVelocities body dt],
        (specOps ppm detect resolve solve).IntegrateVelocities t body dt)) w.bodies
      (forEach (fun t constraint => ([Event.Solve constraint],
          (specOps ppm detect resolve solve).Solve t constraint)) w.constraints
        (forEach (fun t body => ([Event.IntegrateForces body dt],
            (specOps ppm detect resolve solve).IntegrateForces t body dt)) w.bodies
          (inject (specOps ppm detect resolve solve) w h).2).2).2).2
      = fun q => (fun b : Body => b.IntegrateVelocities dt)^[w.bodies.count q]
          ((fun b : Body => b.IntegrateForces dt)^[w.bodies.count q]
            ((Body.injected w ppm)^[w.bodies.count q] (h q))) := by
    rw [hcons, inject_spec]
    simp only [forEach, specOps]
    rw [e2', e4']
  simp only [Update]
  rw [hheap]
  exact ⟨_, rfl, rfl⟩

theorem injected_integrated_velocity (w : World) (ppm dt : ℚ) (b : Body)
    (hs : b.IsStatic = false) (hforces : w.forces = []) :
    (((b.injected w ppm).IntegrateForces dt).IntegrateVelocities dt).velocity.y
      = b.velocity.y + (b.sumForces.y + b.gravityScale * (w.G * b.mass * ppm)) * b.invMass * dt := by
  have e1 := foldl_preserves (fun c : Body => (c.velocity, c.sumForces, c.invMass))
    Body.AddTorque (fun _ _ => rfl) w.torques
    (Body.AddForce { b with isColliding := false } ⟨0, b.gravityScale * (w.G * b.mass * ppm)⟩)
  simp only [Prod.mk.injEq] at e1
  obtain ⟨e1, e2, e3⟩ := e1
  simp only [Body.injected, hs, hforces, List.foldl_nil, Bool.false_eq_true, if_false,
    Body.IntegrateVelocities, Body.IntegrateForces, Vec2.add, Vec2.scale, e1, e2, e3]
  simp only [Body.AddForce, Vec2.add]

/-- C2: in the injection loop of `World::Update`, for a world with `G = -gravity`,
the calls are, body by body in insertion order: nothing for a static body;
for a non-static body one `AddForce` of `(0, gravityScale * G * mass *
PIXELS_PER_METER)`, then one `AddForce` per queued force in queue order, then
one `AddTorque` per queued torque in queue order.  A static body is the target
of no call at all, and its object (so its accumulated force and torque) is
the same after the loop. -/
theorem inject_calls_per_body (gravity ppm : ℚ) (detect : Heap → BodyPtr → BodyPtr → Bool × κ)
    (resolve : Heap → κ → Heap) (solve : Heap → ConstraintPtr → Heap)
    (w : World) (h : Heap) (hG : w.G = -gravity) :
    (inject (specOps ppm detect resolve solve) w h).1
      = w.bodies.flatMap (fun p =>
          if (h p).IsStatic then []
          else
            Event.AddForce p ⟨0, (h p).gravityScale * (-gravity) * (h p).mass * ppm⟩
              :: (w.forces.map (fun force => Event.AddForce p force)
                  ++ w.torques.map (fun torque => Event.AddTorque p torque))) ∧
    ∀ p, (h p).IsStatic = true →
      (∀ e ∈ (inject (specOps ppm detect resolve solve) w h).1, p ∉ e.bodies) ∧
      (inject (specOps ppm detect resolve solve) w h).2 p = h p ∧
      ((inject (specOps ppm detect resolve solve) w h).2 p).sumForces = (h p).sumForces ∧
      ((inject (specOps ppm detect resolve solve) w h).2 p).sumTorque = (h p).sumTorque := by
  rw [inject_spec]
  refine ⟨?_, ?_⟩
  · apply List.flatMap_congr
    intro p _
    have e : (h p).gravityScale * (w.G * (h p).mass * ppm)
        = (h p).gravityScale * (-gravity) * (h p).mass * ppm := by
      rw [hG]; ring
    simp only [injectCalls, e]
  · intro p hp
    have hfix := injected_iterate_of_static w ppm (h p) hp (w.bodies.count p)
    refine ⟨?_, hfix, congrArg Body.sumForces hfix, congrArg Body.sumTorque hfix⟩
    intro e he
    simp only [List.mem_flatMap] at he
    obtain ⟨q, -, hq⟩ := he
    have hne : p ≠ q := by
      rintro rfl
      simp [injectCalls, hp] at hq
    unfold injectCalls at hq
    split at hq
    · simp at hq
    · simp only [List.mem_cons, List.mem_append, List.mem_map] at hq
      rcases hq with rfl | ⟨f, -, rfl⟩ | ⟨t, -, rfl⟩ <;> simpa [Event.bodies] using hne

/-- Witness of C2: the sample world, built by `World(-10)`, so that `G = 10`. -/
theorem inject_calls_per_body_witness :
    sampleWorld.G = -(-10) ∧
    (inject sampleOps sampleWorld sampleHeap).1
      = sampleWorld.bodies.flatMap (fun p =>
          if (sampleHeap p).IsStatic then []
          else
            Event.AddForce p
                ⟨0, (sampleHeap p).gravityScale * (-(-10)) * (sampleHeap p).mass * 50⟩
              :: (sampleWorld.forces.map (fun force => Event.AddForce p force)
                  ++ sampleWorld.torques.map (fun torque => Event.AddTorque p torque))) :=
  ⟨rfl, (inject_calls_per_body (-10) 50 (fun _ _ _ => (false, ())) (fun h _ => h)
    (fun h _ => h) sampleWorld sampleHeap rfl).1⟩

/-- C3, as amended: for a non-static body `b` that occurs once in the
collection, with zero vertical velocity and no accumulated vertical force, in a
world with no queued force and no constraint, in a step in which no pair of
bodies is found colliding (no `IsColliding` call of that step returns true,
which is to say that the step makes no `ResolveCollision` call; the detector
may well return true on other heaps), `World::Update(dt)` returns and the
vertical velocity of `b` is then `gravityScale * (G * mass * PIXELS_PER_METER)
* inverseMass * dt`, the product being taken in the order in which the code
computes it; in exact arithmetic, with `G = -gravity` and
`mass * inverseMass = 1`, this is `-gravity * gravityScale * PIXELS_PER_METER *
dt`. -/
theorem Update_gravity_velocity (ppm : ℚ) (detect : Heap → BodyPtr → BodyPtr → Bool × κ)
    (resolve : Heap → κ → Heap) (solve : Heap → ConstraintPtr → Heap)
    (w : World) (h : Heap) (dt : ℚ) (fuel : Nat) (b : BodyPtr)
    (hb : w.bodies.count b = 1) (hn : w.bodies.length ≤ INT_MAX)
    (hf : w.bodies.length + 1 ≤ fuel)
    (hs : (h b).IsStatic = false) (hv : (h b).velocity.y = 0) (hF : (h b).sumForces.y = 0)
    (hforces : w.forces = []) (hcons : w.constraints = [])
    (hno : ∀ a c, Event.ResolveCollision a c
      ∉ (Update (specOps ppm detect resolve solve) w dt fuel h).events) :
    ∃ h1, (Update (specOps ppm detect resolve solve) w dt fuel h).result = some (w, h1) ∧
      (h1 b).velocity.y
        = (h b).gravityScale * (w.G * (h b).mass * ppm) * (h b).invMass * dt ∧
      ∀ gravity, w.G = -gravity → (h b).mass * (h b).invMass = 1 →
        (h1 b).velocity.y = -gravity * (h b).gravityScale * ppm * dt := by
  have hpos : 1 ≤ w.bodies.length := by
    have := List.count_le_length b w.bodies
    omega
  have hvy := injected_integrated_velocity w ppm dt (h b) hs hforces
  rw [hv, hF, zero_add, zero_add] at hvy
  obtain ⟨pre, hev, hres⟩ := Update_spec_split ppm detect resolve solve w h dt fuel hcons
  obtain ⟨t1, a1, -, -⟩ := checkOuter_spec (specOps ppm detect resolve solve) w.bodies hpos hn
    w.bodies.length 0 fuel
    (fun q => (fun b : Body => b.IntegrateVelocities dt)^[w.bodies.count q]
      ((fun b : Body => b.IntegrateForces dt)^[w.bodies.count q]
        ((Body.injected w ppm)^[w.bodies.count q] (h q)))) (by omega) (by omega)
  have ht1 := checkOuter_no_resolve (specOps ppm detect resolve solve) w.bodies fuel _ _ t1
    (fun a c hm => hno a c (by rw [hev]; exact List.mem_append_right _ hm)) a1
  subst ht1
  have hresult : (Update (specOps ppm detect resolve solve) w dt fuel h).result
      = some (w, fun q => (fun b : Body => b.IntegrateVelocities dt)^[w.bodies.count q]
          ((fun b : Body => b.IntegrateForces dt)^[w.bodies.count q]
            ((Body.injected w ppm)^[w.bodies.count q] (h q)))) := by
    rw [hres]
    have : (CheckCollisions (specOps ppm detect resolve solve) w fuel
        (fun q => (fun b : Body => b.IntegrateVelocities dt)^[w.bodies.count q]
          ((fun b : Body => b.IntegrateForces dt)^[w.bodies.count q]
            ((Body.injected w ppm)^[w.bodies.count q] (h q))))).result = some _ := a1
    rw [this]
    rfl
  refine ⟨_, hresult, ?_, ?_⟩
  · simp only [hb, Function.iterate_one]
    exact hvy
  · intro gravity hG hm
    simp only [hb, Function.iterate_one]
    rw [hvy, hG]
    have : (h b).gravityScale * (-gravity * (h b).mass * ppm) * (h b).invMass * dt
        = -gravity * (h b).gravityScale * ppm * dt * ((h b).mass * (h b).invMass) := by ring
    rw [this, hm, mul_one]

/-- Witness of C3 as amended: the sample world of two bodies of mass 2 and
gravity scale 1, gravity `-10`, 50 pixels per metre, a step of 1, with a
detector that is not constantly false: it finds a pair colliding once body 1
is beyond 10000.  In this step the one `IsColliding` call returns false and no
`ResolveCollision` call is made. -/
theorem Update_gravity_velocity_witness :
    (distantOps.IsColliding (fun _ => { sampleBody with position := ⟨0, 20000⟩ }) 0 1).1 = true ∧
    (Update distantOps sampleWorld 1 3 sampleHeap).events
      = [Event.AddForce 0 ⟨0, 1000⟩, Event.AddForce 1 ⟨0, 1000⟩,
         Event.IntegrateForces 0 1, Event.IntegrateForces 1 1,
         Event.IntegrateVelocities 0 1, Event.IntegrateVelocities 1 1,
         Event.IsColliding 0 1 0 1] ∧
    ∃ h1, (Update distantOps sampleWorld 1 3 sampleHeap).result = some (sampleWorld, h1) ∧
      (h1 0).velocity.y = 500 := by
  have hev : (Update distantOps sampleWorld 1 3 sampleHeap).events
      = [Event.AddForce 0 ⟨0, 1000⟩, Event.AddForce 1 ⟨0, 1000⟩,
         Event.IntegrateForces 0 1, Event.IntegrateForces 1 1,
         Event.IntegrateVelocities 0 1, Event.IntegrateVelocities 1 1,
         Event.IsColliding 0 1 0 1] := by decide!
  obtain ⟨h1, a, b, -⟩ := Update_gravity_velocity 50
    (fun h _ _ => (decide ((h 1).position.y > 10000), ()))
    (fun h _ => h) (fun h _ => h) sampleWorld sampleHeap 1 3 0
    (by decide) (by decide) (by decide)
    (by simp [sampleHeap, sampleBody, Body.IsStatic]) rfl rfl rfl rfl
    (fun a c hm => by
      have hm2 : Event.ResolveCollision a c
          ∈ (Update distantOps sampleWorld 1 3 sampleHeap).events := hm
      rw [hev] at hm2
      simp at hm2)
  refine ⟨by decide!, hev, h1, a, ?_⟩
  rw [b]
  norm_num [sampleHeap, sampleBody, sampleWorld, World.new, World.AddBody]

/-- C3 as stated fails: the lone sample body is non-static, at rest, with empty
accumulators, in a world built by `World(-10)` with nothing queued and no
constraint; after `Update(1)` its vertical velocity is `500`, which is neither
`gravity * dt = -10` nor `G * dt = 10`.  Whatever the value of
`PIXELS_PER_METER`, a body of gravity scale 0 ends with vertical velocity 0.
Listed twice in the collection, the body ends with twice the velocity, `1000`;
and when the collision check finds it overlapping another body its velocity is
what `ResolveCollision` leaves (here 0). -/
theorem Update_gravity_velocity_counterexample :
    ((sampleHeap 0).IsStatic = false ∧ (sampleHeap 0).velocity = ⟨0, 0⟩ ∧
      (sampleHeap 0).sumForces = ⟨0, 0⟩ ∧ (sampleHeap 0).sumTorque = 0 ∧
      loneWorld = (World.new (-10)).AddBody 0) ∧
    (∃ h1, (Update sampleOps loneWorld 1 2 sampleHeap).result = some (loneWorld, h1) ∧
      (h1 0).velocity.y = 500 ∧ (h1 0).velocity.y ≠ (-10) * 1 ∧
      (h1 0).velocity.y ≠ loneWorld.G * 1) ∧
    (∀ ppm : ℚ, ∃ h1,
      (Update (specOps ppm (fun _ _ _ => (false, ())) (fun h _ => h) (fun h _ => h))
        loneWorld 1 2 (fun _ => { sampleBody with gravityScale := 0 })).result
          = some (loneWorld, h1) ∧
      (h1 0).velocity.y = 0 ∧ (h1 0).velocity.y ≠ (-10) * 1) ∧
    (Update sampleOps (loneWorld.AddBody 0) 1 3 sampleHeap).result.map
      (fun r => (r.2 0).velocity.y) = some 1000 ∧
    (Update stoppingOps sampleWorld 1 3 sampleHeap).result.map
      (fun r => (r.2 0).velocity.y) = some 0 := by
  have hc : List.count 0 loneWorld.bodies = 1 := by decide
  have hns : (sampleHeap 0).IsStatic = false := by
    simp [sampleHeap, sampleBody, Body.IsStatic]
  refine ⟨⟨hns, rfl, rfl, rfl, rfl⟩, ?_, ?_, by decide!, by decide!⟩
  · refine ⟨_, Update_spec_result 50 (fun _ _ _ => (false, ())) (fun h _ => h) (fun h _ => h)
      loneWorld sampleHeap 1 2 (by decide) (by decide) (by decide) rfl (fun _ _ _ => rfl), ?_⟩
    have hvy := injected_integrated_velocity loneWorld 50 1 (sampleHeap 0) hns rfl
    simp only [hc, Function.iterate_one]
    rw [hvy]
    norm_num [sampleHeap, sampleBody, loneWorld, World.new, World.AddBody]
  · intro ppm
    refine ⟨_, Update_spec_result ppm (fun _ _ _ => (false, ())) (fun h _ => h) (fun h _ => h)
      loneWorld (fun _ => { sampleBody with gravityScale := 0 }) 1 2 (by decide) (by decide)
      (by decide) rfl (fun _ _ _ => rfl), ?_⟩
    have hvy := injected_integrated_velocity loneWorld ppm 1
      { sampleBody with gravityScale := 0 } (by simp [sampleBody, Body.IsStatic]) rfl
    simp only [hc, Function.iterate_one]
    rw [hvy]
    norm_num [sampleBody]

/-- C5, at a static body: the body at address 0 is static and enters the step
with its "is colliding" flag set; during `World::Update` no `IsColliding` call
returns true; yet when `Update` returns the flag of the static body is still
set, while the flag of the movable body at address 1 has been reset.  Such a
state arises from a world with no flag set: in a first step the pair `(0, 1)`
is found colliding, in the second step it is not (`IsColliding` is called
once and `ResolveCollision` is not), and after the second step the static
body is still flagged. -/
theorem Update_static_flag_not_reset :
    (flaggedHeap 0).IsStatic = true ∧ (flaggedHeap 0).isColliding = true ∧
    (flaggedHeap 1).IsStatic = false ∧ (flaggedHeap 1).isColliding = true ∧
    (∀ t a b, (sampleOps.IsColliding t a b).1 = false) ∧
    (∃ h1, (Update sampleOps sampleWorld 1 3 flaggedHeap).result = some (sampleWorld, h1) ∧
      (h1 0).isColliding = true ∧ (h1 1).isColliding = false) ∧
    ((restingHeap 0).isColliding = false ∧ (restingHeap 1).isColliding = false) ∧
    (steps touchingOps 1 3 2 sampleWorld restingHeap).map
        (fun r => (r.1.map (fun t => t.2.filter (fun e => decide (e.phase = 5))),
          (r.2.2 0).isColliding, (r.2.2 1).isColliding))
      = some ([[Event.IsColliding 0 1 0 1, Event.ResolveCollision 0 1],
               [Event.IsColliding 0 1 0 1]], true, false) := by
  have hc0 : List.count 0 sampleWorld.bodies = 1 := by decide
  have hc1 : List.count 1 sampleWorld.bodies = 1 := by decide
  have hns : (flaggedHeap 1).IsStatic = false := by
    simp [flaggedHeap, sampleBody, Body.IsStatic]
  refine ⟨by decide, rfl, hns, rfl, fun _ _ _ => rfl, ⟨_,
    Update_spec_result 50 (fun _ _ _ => (false, ())) (fun h _ => h) (fun h _ => h)
      sampleWorld flaggedHeap 1 3 (by decide) (by decide) (by decide) rfl (fun _ _ _ => rfl),
    ?_, ?_⟩, ⟨rfl, rfl⟩, by decide!⟩
  · simp only [hc0, Function.iterate_one]
    rw [injected_of_static _ _ _ (by decide)]
    rfl
  · simp only [hc1, Function.iterate_one]
    have e := foldl_preserves Body.isColliding Body.AddTorque (fun _ _ => rfl)
      sampleWorld.torques
    simp only [Body.IntegrateVelocities, Body.IntegrateForces, Body.injected]
    rw [if_neg (by simp [hns]), e]
    rfl

/-! ## The body collection -/

theorem RemoveBody_bodies (w : World) (b : BodyPtr) :
    (w.RemoveBody b).bodies = w.bodies.erase b := by
  unfold RemoveBody
  by_cases h : List.indexOf b w.bodies = w.bodies.length
  · have hb : b ∉ w.bodies := List.indexOf_eq_length.1 h
    simp [h, List.erase_of_not_mem hb]
  · simp [h, List.eraseIdx_indexOf_eq_erase]

theorem erase_filter_ne (l : List BodyPtr) (b : BodyPtr) :
    (l.erase b).filter (fun c => decide (c ≠ b)) = l.filter (fun c => decide (c ≠ b)) := by
  induction l with
  | nil => rfl
  | cons a as ih =>
    by_cases h : a = b
    · subst h
      simp
    · have hab : (a == b) = false := by simpa using h
      rw [List.erase_cons, hab]
      simp only [Bool.false_eq_true, if_false, List.filter_cons, ih]

theorem Update_events_bodies (ops : Ops σ κ) (w : World) (deltaTime : ℚ) (fuel : Nat) (s : σ) :
    ∀ e ∈ (Update ops w deltaTime fuel s).events, ∀ p ∈ e.bodies, p ∈ w.bodies := by
  obtain ⟨s4, hev, -⟩ := Update_events ops w deltaTime fuel s
  intro e he p hp
  rw [hev] at he
  simp only [List.mem_append, List.mem_map] at he
  rcases he with (((he | ⟨b, hb, rfl⟩) | ⟨c, -, rfl⟩) | ⟨b, hb, rfl⟩) | he
  · obtain ⟨b, hb, ⟨f, rfl⟩ | ⟨t, rfl⟩⟩ := inject_events ops w s e he <;>
      simp only [Event.bodies, List.mem_singleton] at hp <;> rw [hp] <;> exact hb
  · simp only [Event.bodies, List.mem_singleton] at hp
    rw [hp]; exact hb
  · simp [Event.bodies] at hp
  · simp only [Event.bodies, List.mem_singleton] at hp
    rw [hp]; exact hb
  · obtain ⟨a, ha, b, hb, ⟨m, n, rfl⟩ | rfl⟩ := checkOuter_events ops w.bodies fuel 0 s4 e he <;>
      simp only [Event.bodies, List.mem_cons, List.mem_singleton, List.not_mem_nil,
        or_false] at hp <;> rcases hp with rfl | rfl <;> assumption

/-- C6, as amended: `World::RemoveBody(b)` erases the first occurrence of `b`
and touches nothing else: the number of occurrences of `b` drops by one; the
other bodies stay, in their original relative order; removing a body that is
not in the collection leaves the world unchanged.  When `b` occurred at most
once, it no longer occurs afterwards, and then no call of a later
`World::Update` (`AddForce`, `AddTorque`, `IntegrateForces`,
`IntegrateVelocities`, `IsColliding`, `ResolveCollision`) has `b` as an
argument. -/
theorem RemoveBody_spec (w : World) (b : BodyPtr) :
    (w.RemoveBody b).bodies = w.bodies.erase b ∧
    (w.RemoveBody b).bodies.count b = w.bodies.count b - 1 ∧
    (w.RemoveBody b).bodies.filter (fun c => decide (c ≠ b))
      = w.bodies.filter (fun c => decide (c ≠ b)) ∧
    (w.RemoveBody b).bodies.Sublist w.bodies ∧
    (b ∉ w.bodies → w.RemoveBody b = w) ∧
    ((w.RemoveBody b).G = w.G ∧ (w.RemoveBody b).constraints = w.constraints ∧
      (w.RemoveBody b).forces = w.forces ∧ (w.RemoveBody b).torques = w.torques) ∧
    (w.bodies.count b ≤ 1 →
      b ∉ (w.RemoveBody b).bodies ∧
      ∀ (σ κ : Type) (ops : Ops σ κ) (deltaTime : ℚ) (fuel : Nat) (s : σ),
        ∀ e ∈ (Update ops (w.RemoveBody b) deltaTime fuel s).events, b ∉ e.bodies) := by
  have hb := RemoveBody_bodies w b
  refine ⟨hb, ?_, ?_, ?_, ?_, ?_, ?_⟩
  · rw [hb, List.count_erase_self]
  · rw [hb, erase_filter_ne]
  · rw [hb]
    exact List.erase_sublist b w.bodies
  · intro hnot
    unfold RemoveBody
    simp [List.indexOf_eq_length.2 hnot]
  · unfold RemoveBody
    by_cases h : List.indexOf b w.bodies = w.bodies.length <;> simp [h]
  · intro hc
    have hnot : b ∉ (w.RemoveBody b).bodies := by
      rw [hb]
      apply List.count_eq_zero.1
      rw [List.count_erase_self]
      omega
    refine ⟨hnot, ?_⟩
    intro σ κ ops deltaTime fuel s e he hmem
    exact hnot (Update_events_bodies ops (w.RemoveBody b) deltaTime fuel s e he b hmem)

/-- Witness of C6 as amended: removing the body at address 0 from the sample
world, where it occurs once. -/
theorem RemoveBody_spec_witness :
    sampleWorld.bodies.count 0 ≤ 1 ∧ 0 ∉ (sampleWorld.RemoveBody 0).bodies :=
  ⟨by decide, ((RemoveBody_spec sampleWorld 0).2.2.2.2.2.2 (by decide)).1⟩

/-- C6 as stated fails: a body added twice still occurs in the collection after
`RemoveBody`. -/
theorem RemoveBody_counterexample :
    ((((World.new 0).AddBody 7).AddBody 7).RemoveBody 7).bodies = [7] ∧
    7 ∈ ((((World.new 0).AddBody 7).AddBody 7).RemoveBody 7).bodies := by
  decide

theorem run_append (cs ds : List Cmd) (w : World) : run (cs ++ ds) w = run ds (run cs w) := by
  induction cs generalizing w with
  | nil => rfl
  | cons c cs ih => cases c <;> simp [run, ih]

theorem addsFresh_append (cs ds : List Cmd) (w : World) :
    addsFresh (cs ++ ds) w = (addsFresh cs w && addsFresh ds (run cs w)) := by
  induction cs generalizing w with
  | nil => simp [addsFresh, run]
  | cons c cs ih => cases c <;> simp [addsFresh, run, ih, Bool.and_assoc]

theorem lastAdd_concat_self (cs : List Cmd) (b : BodyPtr) :
    lastAdd (cs ++ [Cmd.add b]) b = cs.length + 1 := by
  simp [lastAdd, List.indexOf_cons_self]

theorem lastAdd_concat_ne (cs : List Cmd) (c : Cmd) (b : BodyPtr) (h : c ≠ Cmd.add b) :
    lastAdd (cs ++ [c]) b = lastAdd cs b := by
  simp only [lastAdd, List.reverse_append, List.reverse_cons, List.reverse_nil,
    List.nil_append, List.singleton_append, List.length_append, List.length_singleton]
  rw [List.indexOf_cons_ne _ h]
  omega

theorem lastAdd_le (cs : List Cmd) (b : BodyPtr) : lastAdd cs b ≤ cs.length := by
  unfold lastAdd
  omega

/-- C7, as amended: starting from an empty world, after every sequence of
`AddBody` and `RemoveBody` calls in which no body is added while it is in the
collection, the collection is duplicate-free and lists the bodies in the order
of their (last) insertion; every body in it was added by some call. -/
theorem run_nodup_insertion_order (gravity : ℚ) (cmds : List Cmd)
    (hfresh : addsFresh cmds (World.new gravity) = true) :
    (run cmds (World.new gravity)).bodies.Nodup ∧
    (run cmds (World.new gravity)).bodies.Pairwise
      (fun x y => lastAdd cmds x < lastAdd cmds y) ∧
    ∀ x ∈ (run cmds (World.new gravity)).bodies, Cmd.add x ∈ cmds := by
  induction cmds using List.reverseRecOn with
  | nil => simp [run, World.new]
  | append_singleton cs c ih =>
    rw [addsFresh_append, Bool.and_eq_true] at hfresh
    obtain ⟨hcs, hc⟩ := hfresh
    obtain ⟨ih1, ih2, ih3⟩ := ih hcs
    rw [run_append]
    cases c with
    | add b =>
      have hnot : b ∉ (run cs (World.new gravity)).bodies := by
        simpa [addsFresh] using hc
      have hne : ∀ x ∈ (run cs (World.new gravity)).bodies, Cmd.add b ≠ Cmd.add x := by
        intro x hx heq
        injection heq with heq
        exact hnot (heq ▸ hx)
      simp only [run, AddBody]
      refine ⟨?_, ?_, ?_⟩
      · rw [List.nodup_append]
        refine ⟨ih1, List.nodup_singleton b, ?_⟩
        intro x hx hxb
        rw [List.mem_singleton] at hxb
        exact hnot (hxb ▸ hx)
      · rw [List.pairwise_append]
        refine ⟨?_, List.pairwise_singleton _ _, ?_⟩
        · refine ih2.imp_of_mem ?_
          intro x y hx hy hxy
          rw [lastAdd_concat_ne cs _ x (hne x hx), lastAdd_concat_ne cs _ y (hne y hy)]
          exact hxy
        · intro x hx y hy
          rw [List.mem_singleton] at hy
          subst hy
          rw [lastAdd_concat_self, lastAdd_concat_ne cs _ x (hne x hx)]
          have := lastAdd_le cs x
          omega
      · intro x hx
        rw [List.mem_append, List.mem_singleton] at hx
        rcases hx with hx | rfl
        · exact List.mem_append_left _ (ih3 x hx)
        · exact List.mem_append_right _ (List.mem_singleton_self _)
    | remove b =>
      have hsub : (run [Cmd.remove b] (run cs (World.new gravity))).bodies.Sublist
          (run cs (World.new gravity)).bodies := by
        simp only [run, RemoveBody_bodies]
        exact List.erase_sublist b _
      refine ⟨ih1.sublist hsub, ?_, ?_⟩
      · refine (ih2.sublist hsub).imp ?_
        intro x y hxy
        rw [lastAdd_concat_ne cs _ x (by simp), lastAdd_concat_ne cs _ y (by simp)]
        exact hxy
      · intro x hx
        exact List.mem_append_left _ (ih3 x (hsub.subset hx))

/-- Witness of C7 as amended: add 1, add 2, remove 1, add 1. -/
theorem run_nodup_insertion_order_witness :
    addsFresh [Cmd.add 1, Cmd.add 2, Cmd.remove 1, Cmd.add 1] (World.new 0) = true ∧
    (run [Cmd.add 1, Cmd.add 2, Cmd.remove 1, Cmd.add 1] (World.new 0)).bodies.Nodup :=
  ⟨by decide, (run_nodup_insertion_order 0
    [Cmd.add 1, Cmd.add 2, Cmd.remove 1, Cmd.add 1] (by decide)).1⟩

/-- C7 as stated fails: `AddBody` does not look for the body in the collection,
so adding the same body twice to an empty world lists it twice. -/
theorem run_nodup_counterexample :
    (run [Cmd.add 7, Cmd.add 7] (World.new 0)).bodies = [7, 7] ∧
    ¬ (run [Cmd.add 7, Cmd.add 7] (World.new 0)).bodies.Nodup := by
  decide

/-! ## Queued forces and torques -/

theorem forEach_preserves {α γ : Type} (π : σ → γ) (body : σ → α → List Event × σ)
    (hbody : ∀ t a, π (body t a).2 = π t) (l : List α) (s : σ) :
    π (forEach body l s).2 = π s := by
  induction l generalizing s with
  | nil => rfl
  | cons a as ih => simp only [forEach, ih, hbody]

theorem injectBody_static (ops : Ops σ κ) (hst : ops.StaticStable) (w : World) (s : σ)
    (p q : BodyPtr) : ops.IsStatic (injectBody ops w s p).2 q = ops.IsStatic s q := by
  obtain ⟨h1, h2, h3⟩ := hst
  unfold injectBody
  split
  · rfl
  · simp only
    rw [forEach_preserves (fun t => ops.IsStatic t q)
        (fun t torque => ([Event.AddTorque p torque], ops.AddTorque t p torque))
        (fun t a => h3 t p a q),
      forEach_preserves (fun t => ops.IsStatic t q)
        (fun t force => ([Event.AddForce p force], ops.AddForce t p force))
        (fun t a => h2 t p a q), h2, h1]

theorem injectBody_mem (ops : Ops σ κ) (w : World) (s : σ) (b : BodyPtr)
    (hb : ops.IsStatic s b = false) (f : Vec2) (hf : f ∈ w.forces) :
    Event.AddForce b f ∈ (injectBody ops w s b).1 := by
  unfold injectBody
  rw [if_neg (by simp [hb])]
  simp only
  rw [forEach_single (fun force => Event.AddForce b force)
    (fun t force => ops.AddForce t b force)]
  exact List.mem_cons_of_mem _ (List.mem_append_left _ (List.mem_map_of_mem _ hf))

theorem inject_mem (ops : Ops σ κ) (hst : ops.StaticStable) (w : World) (f : Vec2)
    (hf : f ∈ w.forces) (b : BodyPtr) :
    ∀ (l : List BodyPtr) (s : σ), b ∈ l → ops.IsStatic s b = false →
      Event.AddForce b f ∈ (forEach (injectBody ops w) l s).1 := by
  intro l
  induction l with
  | nil => intro s hb; simp at hb
  | cons a as ih =>
    intro s hb hs
    simp only [forEach, List.mem_append]
    by_cases hab : b = a
    · subst hab
      exact Or.inl (injectBody_mem ops w s b hs f hf)
    · have hmem : b ∈ as := by
        rcases List.mem_cons.1 hb with h | h
        · exact absurd h hab
        · exact h
      refine Or.inr (ih _ hmem ?_)
      rw [injectBody_static ops hst]
      exact hs

theorem Update_mem (ops : Ops σ κ) (hst : ops.StaticStable) (w : World) (deltaTime : ℚ)
    (fuel : Nat) (s : σ) (f : Vec2) (hf : f ∈ w.forces) (b : BodyPtr) (hb : b ∈ w.bodies)
    (hs : ops.IsStatic s b = false) :
    Event.AddForce b f ∈ (Update ops w deltaTime fuel s).events := by
  obtain ⟨s4, hev, -⟩ := Update_events ops w deltaTime fuel s
  rw [hev]
  simp only [List.mem_append]
  exact Or.inl (Or.inl (Or.inl (Or.inl (inject_mem ops hst w f hf b w.bodies s hb hs))))

theorem Update_returns (ops : Ops σ κ) (w : World) (deltaTime : ℚ) (fuel : Nat) (s : σ)
    (h1 : 1 ≤ w.bodies.length) (hn : w.bodies.length ≤ INT_MAX)
    (hf : w.bodies.length + 1 ≤ fuel) :
    ∃ s1, (Update ops w deltaTime fuel s).result = some (w, s1) := by
  obtain ⟨s4, -, hres⟩ := Update_events ops w deltaTime fuel s
  obtain ⟨s1, a1, -, -⟩ := checkOuter_spec ops w.bodies h1 hn w.bodies.length 0 fuel s4
    (by omega) (by omega)
  refine ⟨s1, ?_⟩
  rw [hres]
  have : (CheckCollisions ops w fuel s4).result = some s1 := a1
  rw [this]
  rfl

theorem Update_world (ops : Ops σ κ) (w : World) (deltaTime : ℚ) (fuel : Nat) (s : σ)
    (r : World × σ) (h : (Update ops w deltaTime fuel s).result = some r) : r.1 = w := by
  simp only [Update, Option.map_eq_some'] at h
  obtain ⟨t, -, rfl⟩ := h
  rfl

theorem steps_of_some (ops : Ops σ κ) (hst : ops.StaticStable) (deltaTime : ℚ) (fuel : Nat)
    (w : World) :
    ∀ (k : Nat) (s : σ) (ts : List (σ × List Event)) (fin : World × σ),
      steps ops deltaTime fuel k w s = some (ts, fin) →
        ts.length = k ∧ fin.1 = w ∧
        ∀ t ∈ ts, ∀ b ∈ w.bodies, ops.IsStatic t.1 b = false →
          ∀ f ∈ w.forces, Event.AddForce b f ∈ t.2 := by
  intro k
  induction k with
  | zero =>
    intro s ts fin h
    simp only [steps, Option.some.injEq, Prod.mk.injEq] at h
    obtain ⟨rfl, rfl⟩ := h
    exact ⟨rfl, rfl, by simp⟩
  | succ k ih =>
    intro s ts fin h
    unfold steps at h
    simp only at h
    split at h
    · simp at h
    · rename_i w1 s1 hres
      have hw : w1 = w := Update_world ops w deltaTime fuel s (w1, s1) hres
      subst hw
      split at h
      · simp at h
      · rename_i ts1 fin1 hrec
        simp only [Option.some.injEq, Prod.mk.injEq] at h
        obtain ⟨rfl, rfl⟩ := h
        obtain ⟨a2, a3, a4⟩ := ih s1 ts1 fin1 hrec
        refine ⟨by simp [a2], a3, ?_⟩
        intro t ht b hb hs f hfm
        rcases List.mem_cons.1 ht with rfl | ht
        · exact Update_mem ops hst w1 deltaTime fuel s f hfm b hb hs
        · exact a4 t ht b hb hs f hfm

theorem steps_returns (ops : Ops σ κ) (deltaTime : ℚ) (fuel : Nat)
    (w : World) (h1 : 1 ≤ w.bodies.length) (hn : w.bodies.length ≤ INT_MAX)
    (hf : w.bodies.length + 1 ≤ fuel) :
    ∀ (k : Nat) (s : σ), ∃ ts fin, steps ops deltaTime fuel k w s = some (ts, fin) := by
  intro k
  induction k with
  | zero =>
    intro s
    exact ⟨[], (w, s), rfl⟩
  | succ k ih =>
    intro s
    obtain ⟨s1, hs1⟩ := Update_returns ops w deltaTime fuel s h1 hn hf
    obtain ⟨ts, fin, a1⟩ := ih s1
    exact ⟨(s, (Update ops w deltaTime fuel s).events) :: ts, fin, by simp only [steps, hs1, a1]⟩

theorem specOps_staticStable (ppm : ℚ) (detect : Heap → BodyPtr → BodyPtr → Bool × κ)
    (resolve : Heap → κ → Heap) (solve : Heap → ConstraintPtr → Heap) :
    (specOps ppm detect resolve solve).StaticStable := by
  refine ⟨?_, ?_, ?_⟩ <;> intro s p v q <;> by_cases hq : q = p <;>
    simp [specOps, Heap.set, hq, Body.IsStatic, Body.AddForce, Body.AddTorque]

/-- C8: `World::AddForce` and `World::AddTorque` only append to their queue;
`World::Update` returns with the world it was called on, so with the same
queued forces and torques; consequently, after a single `World::AddForce(f)`,
whenever `k` successive calls of `Update` have returned, the queues are the
same after them, and in each of the `k` steps every body of the collection
that is non-static when the step starts has received `AddForce(f)`.  With
between 1 and `INT_MAX` bodies and fuel for the collision check, the `k`
calls do return. -/
theorem queued_force_applied_every_step (ops : Ops σ κ) (hst : ops.StaticStable)
    (w : World) (force : Vec2) (deltaTime : ℚ) (fuel k : Nat) (s : σ) :
    ((w.AddForce force).forces = w.forces ++ [force] ∧
      (w.AddForce force).torques = w.torques ∧ (w.AddForce force).bodies = w.bodies) ∧
    (∀ torque, (w.AddTorque torque).torques = w.torques ++ [torque] ∧
      (w.AddTorque torque).forces = w.forces ∧ (w.AddTorque torque).bodies = w.bodies) ∧
    (∀ (w0 : World) (s0 : σ) (r : World × σ),
      (Update ops w0 deltaTime fuel s0).result = some r →
        r.1.forces = w0.forces ∧ r.1.torques = w0.torques) ∧
    (∀ ts fin, steps ops deltaTime fuel k (w.AddForce force) s = some (ts, fin) →
      ts.length = k ∧
      fin.1.forces = w.forces ++ [force] ∧ fin.1.torques = w.torques ∧
      ∀ t ∈ ts, ∀ b ∈ w.bodies, ops.IsStatic t.1 b = false →
        Event.AddForce b force ∈ t.2) ∧
    (1 ≤ w.bodies.length → w.bodies.length ≤ INT_MAX → w.bodies.length + 1 ≤ fuel →
      ∃ ts fin, steps ops deltaTime fuel k (w.AddForce force) s = some (ts, fin)) := by
  refine ⟨⟨rfl, rfl, rfl⟩, fun _ => ⟨rfl, rfl, rfl⟩, ?_, ?_, ?_⟩
  · intro w0 s0 r hr
    rw [Update_world ops w0 deltaTime fuel s0 r hr]
    exact ⟨rfl, rfl⟩
  · intro ts fin hrun
    obtain ⟨a2, a3, a4⟩ := steps_of_some ops hst deltaTime fuel (w.AddForce force) k s ts fin hrun
    refine ⟨a2, by rw [a3]; rfl, by rw [a3]; rfl, ?_⟩
    intro t ht b hb hs
    exact a4 t ht b hb hs force (List.mem_append_right _ (List.mem_singleton_self _))
  · intro h1 hn hf
    exact steps_returns ops deltaTime fuel (w.AddForce force) h1 hn hf k s

/-- Witness of C8: the sample world, two steps after queuing the force `(1, 0)`. -/
theorem queued_force_applied_every_step_witness :
    ∃ ts fin, steps sampleOps 1 3 2 (sampleWorld.AddForce ⟨1, 0⟩) sampleHeap = some (ts, fin) ∧
      ts.length = 2 ∧
      ∀ t ∈ ts, ∀ b ∈ sampleWorld.bodies, sampleOps.IsStatic t.1 b = false →
        Event.AddForce b ⟨1, 0⟩ ∈ t.2 := by
  obtain ⟨-, -, -, a, b⟩ :=
    queued_force_applied_every_step sampleOps
      (specOps_staticStable 50 (fun _ _ _ => (false, ())) (fun h _ => h) (fun h _ => h))
      sampleWorld ⟨1, 0⟩ 1 3 2 sampleHeap
  obtain ⟨ts, fin, hrun⟩ := b (by decide) (by decide) (by decide)
  obtain ⟨a2, -, -, a5⟩ := a ts fin hrun
  exact ⟨ts, fin, hrun, a2, a5⟩

end World

/-! ## The nearest-body query -/

namespace Application

theorem closest_loop {α : Type} [LinearOrder α] (dist : BodyPtr → α) :
    ∀ (l : List BodyPtr) (c : BodyPtr),
      ∃ c1, l.foldl (closestStep dist) (some c, dist c) = (some c1, dist c1) ∧
        ((c1 = c ∧ ∀ x ∈ l, dist c ≤ dist x) ∨
         (∃ i : Nat, l[i]? = some c1 ∧ dist c1 < dist c ∧ (∀ x ∈ l, dist c1 ≤ dist x) ∧
            ∀ k : Nat, k < i → ∀ x, l[k]? = some x → dist c1 < dist x)) := by
  intro l
  induction l with
  | nil => intro c; exact ⟨c, rfl, Or.inl ⟨rfl, by simp⟩⟩
  | cons a l ih =>
    intro c
    by_cases hge : dist a ≥ dist c
    · have hstep : closestStep dist (some c, dist c) a = (some c, dist c) := by
        simp [closestStep, hge]
      obtain ⟨c1, h1, h2⟩ := ih c
      refine ⟨c1, by rw [List.foldl_cons, hstep, h1], ?_⟩
      rcases h2 with ⟨rfl, hall⟩ | ⟨i, hi, hlt, hall, hfirst⟩
      · left
        refine ⟨rfl, ?_⟩
        intro x hx
        rcases List.mem_cons.1 hx with rfl | hx
        · exact hge
        · exact hall x hx
      · right
        refine ⟨i + 1, by simpa using hi, hlt, ?_, ?_⟩
        · intro x hx
          rcases List.mem_cons.1 hx with rfl | hx
          · exact le_of_lt (lt_of_lt_of_le hlt hge)
          · exact hall x hx
        · intro k hk x hx
          cases k with
          | zero =>
            simp only [List.getElem?_cons_zero, Option.some.injEq] at hx
            subst hx
            exact lt_of_lt_of_le hlt hge
          | succ k =>
            simp only [List.getElem?_cons_succ] at hx
            exact hfirst k (by omega) x hx
    · have hlt0 : dist a < dist c := lt_of_not_ge hge
      have hstep : closestStep dist (some c, dist c) a = (some a, dist a) := by
        simp [closestStep, hlt0]
      obtain ⟨c1, h1, h2⟩ := ih a
      refine ⟨c1, by rw [List.foldl_cons, hstep, h1], Or.inr ?_⟩
      rcases h2 with ⟨rfl, hall⟩ | ⟨i, hi, hlt, hall, hfirst⟩
      · refine ⟨0, by simp, hlt0, ?_, ?_⟩
        · intro x hx
          rcases List.mem_cons.1 hx with rfl | hx
          · exact le_refl _
          · exact hall x hx
        · intro k hk
          omega
      · refine ⟨i + 1, by simpa using hi, lt_trans hlt hlt0, ?_, ?_⟩
        · intro x hx
          rcases List.mem_cons.1 hx with rfl | hx
          · exact le_of_lt hlt
          · exact hall x hx
        · intro k hk x hx
          cases k with
          | zero =>
            simp only [List.getElem?_cons_zero, Option.some.injEq] at hx
            subst hx
            exact hlt
          | succ k =>
            simp only [List.getElem?_cons_succ] at hx
            exact hfirst k (by omega) x hx

/-- C9: `Application::FindClosestBody(p)` returns null exactly when the body list
is empty; otherwise it returns a body of the list whose distance
`|position - p|` is minimal over the list, and among the bodies at that
minimal distance the one that comes first in iteration order (every body
before it is strictly farther). -/
theorem FindClosestBody_spec {α : Type} [LinearOrder α] [Zero α] (Magnitude : Vec2 → α)
    (pos : BodyPtr → Vec2) (bodies : List BodyPtr) (position : Vec2) :
    (FindClosestBody Magnitude pos bodies position = none ↔ bodies = []) ∧
    ∀ b, FindClosestBody Magnitude pos bodies position = some b →
      ∃ i : Nat, bodies[i]? = some b ∧
        (∀ x ∈ bodies, Magnitude ((pos b).sub position) ≤ Magnitude ((pos x).sub position)) ∧
        ∀ k : Nat, k < i → ∀ x, bodies[k]? = some x →
          Magnitude ((pos b).sub position) < Magnitude ((pos x).sub position) := by
  cases bodies with
  | nil =>
    refine ⟨by simp [FindClosestBody], ?_⟩
    intro b hb
    simp [FindClosestBody] at hb
  | cons a l =>
    have hfirst : closestStep (fun body => Magnitude ((pos body).sub position)) (none, 0) a
        = (some a, Magnitude ((pos a).sub position)) := by
      simp [closestStep]
    obtain ⟨c1, h1, h2⟩ := closest_loop (fun body => Magnitude ((pos body).sub position)) l a
    have hres : FindClosestBody Magnitude pos (a :: l) position = some c1 := by
      unfold FindClosestBody
      rw [List.foldl_cons, hfirst, h1]
    refine ⟨by simp [hres], ?_⟩
    intro b hb
    rw [hres] at hb
    injection hb with hb
    subst hb
    rcases h2 with ⟨rfl, hall⟩ | ⟨i, hi, hlt, hall, hfst⟩
    · refine ⟨0, by simp, ?_, ?_⟩
      · intro x hx
        rcases List.mem_cons.1 hx with rfl | hx
        · exact le_refl _
        · exact hall x hx
      · intro k hk
        omega
    · refine ⟨i + 1, by simpa using hi, ?_, ?_⟩
      · intro x hx
        rcases List.mem_cons.1 hx with rfl | hx
        · exact le_of_lt hlt
        · exact hall x hx
      · intro k hk x hx
        cases k with
        | zero =>
          simp only [List.getElem?_cons_zero, Option.some.injEq] at hx
          subst hx
          exact hlt
        | succ k =>
          simp only [List.getElem?_cons_succ] at hx
          exact hfst k (by omega) x hx

end Application

end Physics
